import Mathlib

/-!
Shallow embedding of the finding-normalization / deduplication / grouping /
rendering / validation pipeline of `src/frontend/lib/audit.ts`.

TypeScript strings are modelled as Lean `String`; JavaScript's
`Array.prototype.join("\n")` is modelled by `joinNl`; the observable line
structure of a produced Markdown string is recovered with `mdLines`
(splitting on the newline character), mirroring how the validator's
multiline regexes see the text.  Fallible/async boundaries (the network
call to the candidate generator) are modelled by an explicit
`Except`-valued outcome parameter.
-/

namespace Audit

/-- `Location` of `audit.ts` (line 90): `{file, line: number|null, element}`.
`line = none` models the TypeScript `null`. -/
structure Location where
  file : String
  line : Option Nat
  element : String
deriving DecidableEq

/-- The boolean facts produced by `deriveFacts` (audit.ts lines 234-243). -/
structure DerivedFacts where
  writesAfterCall : Bool
  mentionsDelegatecall : Bool
  mentionsLowLevelCall : Bool
  exactStylePhrase : Bool
  mentionsZeroCheck : Bool
deriving DecidableEq

/-- `SWCMeta` of audit.ts (lines 79-84): SWC info attached to an issue.
The TypeScript `id?: string` is an optional field, hence `Option String`. -/
structure SWCMeta where
  id : Option String
  title : String
  remediation : String
  references : List String
deriving DecidableEq

/-- The normalized issue shape produced by `normalizeIssue`
(audit.ts lines 382-401): both renderer paths consume this structure. -/
structure NormalizedIssue where
  check : String
  title : String
  impact : String
  confidence : String
  description : String
  locations : List Location
  facts : DerivedFacts
  swc : Option SWCMeta
deriving DecidableEq

/-- The shape of the generator's JSON reply (`OllamaResponse`,
audit.ts lines 68-71): both fields are optional in TypeScript. -/
structure OllamaResponse where
  response : Option String
  error : Option String
deriving DecidableEq

/-- Is `pat` a contiguous sublist of `hay`?  Models JavaScript
`String.prototype.includes` (on the character lists of the strings). -/
def hasInfix (pat : List Char) : List Char → Bool
  | [] => pat.isPrefixOf ([] : List Char)
  | c :: t => pat.isPrefixOf (c :: t) || hasInfix pat t

/-- JavaScript `hay.includes(pat)`. -/
def strIncludes (hay pat : String) : Bool :=
  hasInfix pat.data hay.data

/-- JavaScript `String.prototype.toLowerCase` (ASCII case folding, which is
all the fixed phrase patterns of `deriveFacts` need): lower-case every
character of the string. -/
def lowerStr (s : String) : String :=
  ⟨s.data.map Char.toLower⟩

/-- `deriveFacts` (audit.ts lines 234-243): case-insensitive substring
checks on the (possibly missing) description. -/
def deriveFacts (desc : Option String) : DerivedFacts :=
  let d := lowerStr (desc.getD "")
  { writesAfterCall := strIncludes d "state variables written after the call"
    mentionsDelegatecall := strIncludes d "delegatecall"
    mentionsLowLevelCall := strIncludes d " call(" || strIncludes d ".call("
    exactStylePhrase := strIncludes d "not in mixedcase"
    mentionsZeroCheck := strIncludes d "lacks a zero-check" || strIncludes d "zero-check" }

/-- The dedup key built in `uniqueLocations`, `formatLocations` and
`groupByCheckAndElement`: the template literal
`file + ":" + (line ?? "") + ":" + element` (audit.ts line 101). -/
def locKey (l : Location) : String :=
  l.file ++ ":" ++ (match l.line with | none => "" | some n => toString n) ++ ":" ++ l.element

/-- The filtering loop of `uniqueLocations`, with the `seen` set carried as
the list of keys already added. -/
def uniqAux : List Location → List String → List Location
  | [], _ => []
  | l :: rest, seen =>
    if locKey l ∈ seen then uniqAux rest seen
    else l :: uniqAux rest (locKey l :: seen)

/-- `uniqueLocations` (audit.ts lines 98-106): keep a location iff its
serialized key was not seen before. -/
def uniqueLocations (locs : List Location) : List Location :=
  uniqAux locs []

/-- The expression `it.locations.find((l) => l.element)?.element ?? ""` of
`groupByCheckAndElement` (audit.ts line 119): the element name of the first
location whose element is non-empty (the empty string is falsy in JS),
or `""` when there is none. -/
def firstElem (locs : List Location) : String :=
  match locs.find? (fun l => !(l.element == "")) with
  | some l => l.element
  | none => ""

/-- The test `it.check === "missing-zero-check"` selecting the items
eligible for grouping (audit.ts line 118). -/
def groupEligible (it : NormalizedIssue) : Bool :=
  it.check == "missing-zero-check"

/-- The grouping key `` `${it.check}@@${elem}` `` (audit.ts line 120). -/
def groupKey (it : NormalizedIssue) : String :=
  it.check ++ "@@" ++ firstElem it.locations

/-- One `grouped.set` step of `groupByCheckAndElement` (audit.ts
lines 121-127) on the insertion-ordered map, modelled as an association
list: merging updates the entry in place, a fresh key is appended.
`{...it, locations: uniqueLocations(it.locations.slice())}` is the clone
stored for a fresh key. -/
def upsert (acc : List (String × NormalizedIssue)) (k : String) (it : NormalizedIssue) :
    List (String × NormalizedIssue) :=
  match acc with
  | [] => [(k, { it with locations := uniqueLocations it.locations })]
  | (k', g) :: rest =>
    if k' = k then
      (k', { g with locations := uniqueLocations (g.locations ++ it.locations) }) :: rest
    else
      (k', g) :: upsert rest k it

/-- The loop of `groupByCheckAndElement` restricted to its effect on the
`grouped` map (the same single pass builds `passthrough`, which we recover
below with `List.filter`). -/
def groupFold (items : List NormalizedIssue) : List (String × NormalizedIssue) :=
  items.foldl (fun acc it => if groupEligible it then upsert acc (groupKey it) it else acc) []

/-- `groupByCheckAndElement` (audit.ts lines 113-133): non-eligible items
pass through in order, followed by the grouped map's values in key
insertion order (`[...passthrough, ...grouped.values()]`). -/
def groupByCheckAndElement (items : List NormalizedIssue) : List NormalizedIssue :=
  items.filter (fun it => !(groupEligible it)) ++ (groupFold items).map Prod.snd

/-- `friendlyTitle` (audit.ts lines 246-263). -/
def friendlyTitle (check : String) : String :=
  if check == "controlled-delegatecall" then "Controlled Delegatecall"
  else if check == "reentrancy-no-eth" then "Reentrancy (no ETH)"
  else if check == "reentrancy-benign" then "Reentrancy (benign)"
  else if check == "missing-zero-check" then "Missing zero-check (address)"
  else if check == "low-level-calls" then "Low-level calls"
  else if check == "naming-convention" then "Naming convention"
  else check

/-- JavaScript `Array.prototype.join("\n")`. -/
def joinNl : List String → String
  | [] => ""
  | [s] => s
  | s :: t :: rest => s ++ "\n" ++ joinNl (t :: rest)

/-- One formatted row of `formatLocations` (audit.ts lines 146-148):
`  - file[:line][ (element: e)]`; `line != null` gates the line part and
JS truthiness (`l.element ?`) gates the element part. -/
def formatRow (l : Location) : String :=
  let linePart := match l.line with | none => "" | some n => ":" ++ toString n
  let elemPart := if l.element == "" then "" else " (element: " ++ l.element ++ ")"
  "  - " ++ l.file ++ linePart ++ elemPart

/-- The loop of `formatLocations` with its `seen` key set. -/
def formatLocsAux : List Location → List String → List String
  | [], _ => []
  | l :: rest, seen =>
    if locKey l ∈ seen then formatLocsAux rest seen
    else formatRow l :: formatLocsAux rest (locKey l :: seen)

/-- `formatLocations` (audit.ts lines 139-151). -/
def formatLocations (locs : List Location) : List String :=
  formatLocsAux locs []

/-- JavaScript regex `\w`: `[A-Za-z0-9_]` (ASCII). -/
def jsWordChar (c : Char) : Bool :=
  (('a' ≤ c && c ≤ 'z') || ('A' ≤ c && c ≤ 'Z') || ('0' ≤ c && c ≤ '9')) || c == '_'

/-- JavaScript regex `\s` (the ASCII part, which is all that matters for
the fixed patterns involved). -/
def jsSpace (c : Char) : Bool :=
  c == ' ' || c == '\t' || c == '\n' || c == '\r' || c == '\x0B' || c == '\x0C'

/-- After the `(` of `/\w+\s*\(.*\)/`: a `)` must occur with no newline
before it (`.` does not match line terminators). -/
def fnishClose : List Char → Bool
  | [] => false
  | c :: rest => if c = ')' then true else if c = '\n' then false else fnishClose rest

/-- After the last character of the `\w+` run: skip `\s*`, expect `(`. -/
def fnishAfterWord : List Char → Bool
  | [] => false
  | c :: rest => if c = '(' then fnishClose rest else if jsSpace c then fnishAfterWord rest else false

/-- Existence of a match of `/\w+\s*\(.*\)/` anywhere in the text:
anchoring at the last character of the `\w+` run, a match exists iff some
word character is followed (after whitespace) by `(`, with a `)` later on
the same line. -/
def fnishScan : List Char → Bool
  | [] => false
  | c :: rest => (jsWordChar c && fnishAfterWord rest) || fnishScan rest

/-- The test `/\w+\s*\(.*\)/.test(elem)` of audit.ts line 327. -/
def testFunctionish (s : String) : Bool :=
  fnishScan s.data

/-- The `risk` string selected by the switch of `renderOne`
(audit.ts lines 292-322). -/
def riskOf (it : NormalizedIssue) : String :=
  if it.check == "controlled-delegatecall" then
    "Uses `delegatecall` to an input-controlled target, executing code in the caller’s context."
  else if it.check == "reentrancy-no-eth" then
    "External call occurs before a state write, enabling reentrancy before effects are applied. A state variable is written after an external call."
  else if it.check == "reentrancy-benign" then
    "External call followed by a state write (marked benign by Slither for this context). A state variable is written after an external call."
  else if it.check == "missing-zero-check" then
    "Target address parameter lacks a `!= address(0)` validation."
  else if it.check == "low-level-calls" then
    "Uses low-level calls (`call`/`delegatecall`) that bypass type safety and can fail silently."
  else if it.check == "naming-convention" then
    "Variable is not in mixedCase."
  else if it.description == "" then "See description." else it.description

/-- The `remediation` string selected by the switch of `renderOne`
(audit.ts lines 292-322). -/
def remediationOf (it : NormalizedIssue) : String :=
  if it.check == "controlled-delegatecall" then
    "Avoid `delegatecall` to untrusted targets; restrict to immutable/whitelisted addresses or replace with interface calls."
  else if it.check == "reentrancy-no-eth" then
    "Apply Checks–Effects–Interactions and/or a reentrancy guard; validate/limit the callee."
  else if it.check == "reentrancy-benign" then
    "Prefer CEI or a guard if the function can be externally triggered."
  else if it.check == "missing-zero-check" then
    "Validate non-zero addresses and check `success` for low-level calls."
  else if it.check == "low-level-calls" then
    "Prefer typed interface calls; if using low-level calls, check `success` and handle returned data."
  else if it.check == "naming-convention" then
    "Rename variables to mixedCase (e.g., `sVariable`, `sOtherVar`)."
  else "Follow best practices for this category."

/-- The optional SWC block of `renderOne` (audit.ts lines 342-352):
three pieces, empty ones removed by `.filter(Boolean)`, joined with
newlines.  JS truthiness: an empty `id`, empty `remediation` or empty
`references` list drops the corresponding piece. -/
def swcBlock (m : SWCMeta) : String :=
  let idPart := match m.id with | none => "" | some s => if s == "" then "" else s ++ ": "
  let l1 := "- **SWC:** " ++ idPart ++ m.title
  let l2 := if m.remediation == "" then "" else "- **SWC Remediation:** " ++ m.remediation
  let l3 :=
    if m.references.isEmpty then ""
    else "- **References:**\n" ++ joinNl (m.references.map (fun r => "  - " ++ r))
  joinNl ([l1, l2, l3].filter (fun s => !(s == "")))

/-- The `main` file of `renderOne` (audit.ts line 332):
`main?.file ?? "(unknown file)"` with `main = locs[0]`. -/
def mainFileOf (locs : List Location) : String :=
  match locs.head? with | some l => l.file | none => "(unknown file)"

/-- The `elem` of `renderOne` (audit.ts line 325):
`locs.find((l) => l.element)?.element || "N/A"`. -/
def elemDispOf (locs : List Location) : String :=
  if firstElem locs == "" then "N/A" else firstElem locs

/-- The `label` of `renderOne` (audit.ts lines 326-329): "Function" when the
element looks like a call or the check is one of the function-level
checks. -/
def labelOf (it : NormalizedIssue) : String :=
  if testFunctionish (elemDispOf it.locations) ||
      (["controlled-delegatecall", "reentrancy-no-eth", "reentrancy-benign",
        "low-level-calls"].contains it.check)
  then "Function" else "Element"

/-- The `line` of `renderOne` (audit.ts line 330):
`locs.find((l) => l.line != null)?.line ?? null`. -/
def lineOptOf (locs : List Location) : Option Nat :=
  match locs.find? (fun l => l.line.isSome) with | some l => l.line | none => none

/-- The `` `${line ? ` (line ${line})` : ""}` `` part of the single-location
header line (audit.ts line 338); a line number of 0 is falsy in JS. -/
def linePartOf (locs : List Location) : String :=
  match lineOptOf locs with
  | some n => if n == 0 then "" else " (line " ++ toString n ++ ")"
  | none => ""

/-- The `headerLines` of `renderOne` (audit.ts lines 332-339). -/
def headerLinesOf (it : NormalizedIssue) : List String :=
  ("- Contract: " ++ mainFileOf it.locations) ::
  (if 1 < (formatLocations it.locations).length
   then "- Locations:" :: formatLocations it.locations
   else ["- " ++ labelOf it ++ ": `" ++ elemDispOf it.locations ++ "`"
          ++ linePartOf it.locations])

/-- The `swcLines` of `renderOne` (audit.ts lines 342-352). -/
def swcStrOf (it : NormalizedIssue) : String :=
  match it.swc with | some m => swcBlock m | none => ""

/-- The segment list `renderOne` joins with newlines (audit.ts
lines 354-362); note the always-present trailing empty segment. -/
def renderSegs (it : NormalizedIssue) : List String :=
  ("## " ++ friendlyTitle it.check) ::
    (headerLinesOf it ++
      ["- Confidence: " ++ it.confidence,
       "- Issue: " ++ riskOf it,
       "- Recommendation: " ++ remediationOf it,
       swcStrOf it, ""])

/-- `renderOne` of `renderMarkdownDeterministic` (audit.ts lines 287-363). -/
def renderOne (it : NormalizedIssue) : String :=
  joinNl (renderSegs it)

/-- The fixed severity order of the renderer and validator
(audit.ts lines 285, 419, 453). -/
def impactOrder : List String := ["High", "Medium", "Low", "Informational"]

/-- The per-severity bucket of `renderMarkdownDeterministic`: items are
pushed into `byImpact[it.impact]` in input order, so the bucket read for a
given severity is the order-preserving filter.  (Unrecognized impacts get a
fresh key via `byImpact[x] ?? (byImpact[x] = [])`, but `order` never reads
those keys.) -/
def bucket (items : List NormalizedIssue) (sev : String) : List NormalizedIssue :=
  items.filter (fun it => it.impact == sev)

/-- The fallback sentence of audit.ts line 373. -/
def noVulnSentence (address : String) : String :=
  "✅ No vulnerabilities found by Slither for " ++ address ++ "."

/-- The severity heading text `# ${sev} Impact Findings`. -/
def sevHeading (sev : String) : String :=
  "# " ++ sev ++ " Impact Findings"

/-- One section of the renderer: the template
`` `# ${sev} Impact Findings\n\n${body}` `` with the bodies of the
severity's findings joined by a newline (audit.ts lines 365-371); the
heading text is the same `sevHeading` the validator later looks for, and
the template's `\n\n` is written as two explicit newline appends. -/
def sectionFor (items : List NormalizedIssue) (sev : String) : String :=
  sevHeading sev ++ "\n" ++ "\n" ++ joinNl ((bucket items sev).map renderOne)

/-- The `sections` string of `renderMarkdownDeterministic`: one section per
non-empty severity in fixed order, joined with a newline. -/
def renderSections (items : List NormalizedIssue) : String :=
  joinNl ((impactOrder.filter (fun sev => !(bucket items sev).isEmpty)).map (sectionFor items))

/-- `renderMarkdownDeterministic` (audit.ts lines 274-374): the joined
sections; the empty string (no sections) is falsy, producing the fallback
sentence (`sections || fallback`). -/
def renderMarkdownDeterministic (address : String) (items : List NormalizedIssue) : String :=
  if renderSections items == "" then noVulnSentence address else renderSections items

/-- Split a character list at every newline; total and never empty,
mirroring JavaScript `"".split("\n") = [""]`. -/
def strSplitNl : List Char → List (List Char)
  | [] => [[]]
  | c :: rest =>
    match strSplitNl rest with
    | [] => [[c]]
    | l :: ls => if c = '\n' then [] :: l :: ls else (c :: l) :: ls

/-- The line view of a Markdown string (what the validator's `^...$`
multiline regexes operate on). -/
def mdLines (s : String) : List String :=
  (strSplitNl s.data).map (fun l => ⟨l⟩)

/-- Drop trailing JS whitespace from a line. -/
def dropTrailingWs (s : String) : String :=
  ⟨(s.data.reverse.dropWhile jsSpace).reverse⟩

/-- Does this line match the regex `^# ${sev} Impact Findings\s*$` used by
`parseCountsFromMarkdown` (audit.ts line 422), i.e. is it the heading
followed only by whitespace? -/
def isSevHeadingLine (sev : String) (line : String) : Bool :=
  dropTrailingWs line == sevHeading sev

/-- Does the line begin with the given text?  (`pre.data.isPrefixOf
l.data`, which is what the anchored regexes `^## ` / `^### ` / `^# `
test on a line.) -/
def lineStarts (l : String) (pre : String) : Bool :=
  pre.data.isPrefixOf l.data

/-- The piece `md.split(regex)[1] || ""` at the line level: the lines
strictly after the first heading occurrence, up to (excluding) the next
occurrence of the same heading; empty when the heading does not occur.
Note this runs through other severities' sections: the split regex only
matches this severity's own heading again. -/
def sectionAfterHeading (sev : String) : List String → List String
  | [] => []
  | l :: rest =>
    if isSevHeadingLine sev l then rest.takeWhile (fun x => !(isSevHeadingLine sev x))
    else sectionAfterHeading sev rest

/-- `parseCountsFromMarkdown` (audit.ts lines 418-428) for one severity:
the larger of the `^## ` and `^### ` line counts in the split piece. -/
def parseCountsFromMarkdown (md : String) (sev : String) : Nat :=
  let sect := sectionAfterHeading sev (mdLines md)
  max (sect.countP (fun l => lineStarts l "## ")) (sect.countP (fun l => lineStarts l "### "))

/-- `countsByImpact` (audit.ts lines 406-412) read at one of the four
impacts: the number of items carrying that impact. -/
def countsByImpact (items : List NormalizedIssue) (sev : String) : Nat :=
  (bucket items sev).length

/-- Scan for `)` with no newline in between (`.+?\)` after its first
consumed character). -/
def anchorClose : List Char → Bool
  | [] => false
  | c :: rest => if c = ')' then true else if c = '\n' then false else anchorClose rest

/-- After `](#`: the `.+?` needs at least one non-newline character, then a
`)` on the same line. -/
def anchorTail : List Char → Bool
  | [] => false
  | c :: rest => if c = '\n' then false else anchorClose rest

/-- Existence of a match of `/\]\(#.+?\)/` anywhere in the text. -/
def anchorScan : List Char → Bool
  | ']' :: '(' :: '#' :: tail => anchorTail tail || anchorScan ('(' :: '#' :: tail)
  | _ :: rest => anchorScan rest
  | [] => false

/-- `containsForbiddenAnchors` (audit.ts lines 431-433). -/
def containsForbiddenAnchors (md : String) : Bool :=
  anchorScan md.data

/-- The exact fixed sentence required by `missingWritesAfterCallSentence`
(audit.ts line 439). -/
def mandatorySentence : String :=
  "A state variable is written after an external call."

/-- `missingWritesAfterCallSentence` (audit.ts lines 436-441). -/
def missingWritesAfterCallSentence (md : String) (items : List NormalizedIssue) : Bool :=
  let needs := items.any (fun i => i.facts.writesAfterCall)
  if !needs then false else !(strIncludes md mandatorySentence)

/-- `validateOrFallback` (audit.ts lines 449-460). -/
def validateOrFallback (md : String) (items : List NormalizedIssue) : Bool :=
  let countsOk :=
    impactOrder.all (fun sev => countsByImpact items sev == parseCountsFromMarkdown md sev)
  let anchorsOk := !(containsForbiddenAnchors md)
  let writesOk := !(missingWritesAfterCallSentence md items)
  countsOk && anchorsOk && writesOk

/-- `enrichWithSWCByDescription` (audit.ts lines 220-228), parameterized by
the external SWC registry lookup (`getSWCEntry` reads the read-only JSON of
the `swc-registry` package, which is outside this repository).  JS
truthiness: a missing or empty description returns null. -/
def enrichWithSWCByDescription {α : Type} (reg : String → Option α)
    (description : Option String) : Option α :=
  match description with
  | none => none
  | some d =>
    if d == "" then none
    else
      let lower := lowerStr d
      if strIncludes lower "integer overflow" || strIncludes lower "underflow" then reg "SWC-101"
      else if strIncludes lower "tx.origin" then reg "SWC-115"
      else none

/-- `enrichWithSWC` (audit.ts lines 198-214), parameterized by the external
registry lookup. -/
def enrichWithSWC {α : Type} (reg : String → Option α) (check : String)
    (description : Option String) : Option α :=
  if check == "controlled-delegatecall" then reg "SWC-112"
  else if check == "reentrancy-no-eth" then reg "SWC-107"
  else if check == "reentrancy-benign" then reg "SWC-107"
  else if check == "low-level-calls" then reg "SWC-104"
  else if check == "missing-zero-check" then none
  else enrichWithSWCByDescription reg description

/-- The check identifiers handled by an explicit case of the `switch` in
`enrichWithSWC` (everything before its `default:` arm). -/
def explicitCheckB (check : String) : Bool :=
  ["controlled-delegatecall", "reentrancy-no-eth", "reentrancy-benign",
   "low-level-calls", "missing-zero-check"].contains check

/-- The identifier-table part of `enrichWithSWC` on its own: the value an
explicitly-listed check resolves to, independent of any description. -/
def swcTableLookup {α : Type} (reg : String → Option α) (check : String) : Option α :=
  if check == "controlled-delegatecall" then reg "SWC-112"
  else if check == "reentrancy-no-eth" then reg "SWC-107"
  else if check == "reentrancy-benign" then reg "SWC-107"
  else if check == "low-level-calls" then reg "SWC-104"
  else none

/-- `normalizeIssue` (audit.ts lines 382-401): assembles the canonical
finding shape; missing description becomes `""`, missing facts are derived
from the description, missing SWC meta stays absent. -/
def normalizeIssue (check impact confidence : String) (description : Option String)
    (locations : List Location) (facts : Option DerivedFacts) (swc : Option SWCMeta) :
    NormalizedIssue :=
  { check := check
    title := friendlyTitle check
    impact := impact
    confidence := confidence
    description := description.getD ""
    locations := locations
    facts := facts.getD (deriveFacts description)
    swc := swc }

/-- The rendering phase of `runAudit` (audit.ts lines 639-692), from the
grouped `enrichedIssues` on.  `rendererMode` is `process.env.AUDIT_RENDERER`
(an absent environment variable is `undefined`, hence `Option`).
`genOutcome` is the outcome of `await fetch(...)` + `await aiRes.json()`:
`Except.error` models a rejected promise (network failure, timeout or an
unparsable body) and `Except.ok` a parsed `OllamaResponse`.  The source has
no try/catch around this call, so a rejection propagates out of `runAudit`
(modelled by returning `Except.error`); writing `audit-summary.md` is an
external side effect not modelled here. -/
def renderPhase (address : String) (enrichedIssues : List NormalizedIssue)
    (rendererMode : Option String) (genOutcome : Except String OllamaResponse) :
    Except String String :=
  if rendererMode == some "deterministic" then
    Except.ok (renderMarkdownDeterministic address enrichedIssues)
  else
    match genOutcome with
    | Except.error e => Except.error e
    | Except.ok data =>
      let md := data.response.getD ""
      Except.ok (if validateOrFallback md enrichedIssues then md
                 else renderMarkdownDeterministic address enrichedIssues)

/-- Spec-side reading of "the number of sub-headings found under that
severity's section": the lines strictly after the severity's heading line
and strictly before the next top-level heading (a line starting with
`# `), with sub-headings recognized at the same two depths the validator
uses.  This is the disjoint-section notion of the specification's data
model, to be compared with the suffix-based `parseCountsFromMarkdown`. -/
def dropThroughHeading (sev : String) : List String → List String
  | [] => []
  | l :: rest => if isSevHeadingLine sev l then rest else dropThroughHeading sev rest

/-- Sub-heading count inside the severity's own (disjoint) section. -/
def specSectionSubCount (md : String) (sev : String) : Nat :=
  max (((dropThroughHeading sev (mdLines md)).takeWhile
        (fun l => !(lineStarts l "# "))).countP (fun l => lineStarts l "## "))
    (((dropThroughHeading sev (mdLines md)).takeWhile
        (fun l => !(lineStarts l "# "))).countP (fun l => lineStarts l "### "))

/-- Does the document contain the severity's top-level heading line? -/
def hasSevHeading (md : String) (sev : String) : Bool :=
  (mdLines md).any (isSevHeadingLine sev)

/-- Is this impact string one of the four severities the renderer's
`order` list iterates over? -/
def recognizedB (s : String) : Bool :=
  impactOrder.contains s

/-- No newline character anywhere in the string. -/
def noNl (s : String) : Bool :=
  !(s.data.contains '\n')

/-- All string fields of a location are newline-free. -/
def locNoNl (l : Location) : Bool :=
  noNl l.file && noNl l.element

/-- All string fields of the optional SWC meta are newline-free. -/
def swcNoNl : Option SWCMeta → Bool
  | none => true
  | some m =>
    (match m.id with | none => true | some s => noNl s) &&
      noNl m.title && noNl m.remediation && m.references.all noNl

/-- All string fields of a finding that the renderer interpolates into its
output are newline-free.  (The impact string is only compared against the
four severities, never printed, so it is not constrained.) -/
def issueNoNl (it : NormalizedIssue) : Bool :=
  noNl it.check && noNl it.confidence && noNl it.description &&
    it.locations.all locNoNl && swcNoNl it.swc

/-- A rendered line that does not even begin with `#` (everything the
renderer emits below a finding's own sub-heading). -/
def okLine (l : String) : Bool :=
  !(l.data.head? == some '#')

/-- Spec-side description of the Location Deduplicator, with the "earlier
locations" carried explicitly: a location is kept iff no earlier location
of the original list has an equal serialized key. -/
def specKeptAux : List Location → List Location → List Location
  | _, [] => []
  | prev, l :: rest =>
    if prev.any (fun p => locKey p == locKey l)
    then specKeptAux (prev ++ [l]) rest
    else l :: specKeptAux (prev ++ [l]) rest

/-- Keep each location iff no earlier location in the list has an equal
serialized `file:line:element` key. -/
def specUniqByKey (locs : List Location) : List Location :=
  specKeptAux [] locs

/-- The claim's reading of the grouping key: the pair of the check
identifier and the element name of the *first* location of the finding
(`none` when the location list is empty). -/
def specClaimKey (it : NormalizedIssue) : String × Option String :=
  (it.check, it.locations.head?.map (fun l => l.element))

/-- First-occurrence deduplication of a key list (the `seen` argument
accumulates the keys already emitted). -/
def dedupFirstAux : List String → List String → List String
  | _, [] => []
  | seen, k :: rest =>
    if k ∈ seen then dedupFirstAux seen rest
    else k :: dedupFirstAux (k :: seen) rest

/-- The keys of a list in order of first occurrence. -/
def dedupFirstKeys (ks : List String) : List String :=
  dedupFirstAux [] ks

/-- All locations appearing in any finding of the list. -/
def allLocs (items : List NormalizedIssue) : List Location :=
  items.flatMap (fun it => it.locations)

/-- The serialized location key is injective on the locations of the
input: no two distinct locations anywhere in the finding list share a key
(colon-free file and element names guarantee this). -/
def KeyInj (items : List NormalizedIssue) : Prop :=
  ∀ l1 ∈ allLocs items, ∀ l2 ∈ allLocs items, locKey l1 = locKey l2 → l1 = l2

/-- Invariant of the grouping map during the fold: every entry is an
eligible finding whose stored key matches its recomputed grouping key,
whose location list is already deduplicated and drawn from the input's
locations, and the stored keys are pairwise distinct. -/
def GroupAccInv (base : List NormalizedIssue) (acc : List (String × NormalizedIssue)) : Prop :=
  (∀ p ∈ acc, p.2.check = "missing-zero-check"
    ∧ p.1 = groupKey p.2
    ∧ uniqueLocations p.2.locations = p.2.locations
    ∧ ∀ l ∈ p.2.locations, l ∈ allLocs base)
  ∧ (acc.map Prod.fst).Nodup

/- ───────────────────────── concrete instances ───────────────────────── -/

/-- A minimal normalized issue used by the concrete instances below. -/
def mkIssue (check impact : String) (locs : List Location) : NormalizedIssue :=
  { check := check
    title := friendlyTitle check
    impact := impact
    confidence := "High"
    description := ""
    locations := locs
    facts := deriveFacts none
    swc := none }

/-- Candidate accepted by the validator although its High section (which
ends at the Medium heading) holds one sub-heading while the input has two
High findings: the split-based count runs to the end of the document. -/
def c1CexMd : String :=
  "# High Impact Findings\n## a\n# Medium Impact Findings\n## b"

/-- Two High findings and one Medium finding. -/
def c1CexItems : List NormalizedIssue :=
  [mkIssue "a-check" "High" [], mkIssue "b-check" "High" [], mkIssue "c-check" "Medium" []]

/-- A single High finding and a well-formed candidate for it. -/
def c1WitItems : List NormalizedIssue := [mkIssue "a-check" "High" []]

/-- Candidate whose counts match `c1WitItems`. -/
def c1WitMd : String := "# High Impact Findings\n## a"

/-- A non-empty finding list for the orchestrator instances. -/
def c2Items : List NormalizedIssue := [mkIssue "a-check" "High" []]

/-- A generator reply that arrived but carries no `response` text. -/
def c2Resp : OllamaResponse := { response := none, error := some "model not loaded" }

/-- Colliding pair: different triples, equal serialized keys
(`"a:1" + ":" + "" + ":" + "b"` and `"a" + ":" + "1" + ":" + ":b"` are both
`"a:1::b"`). -/
def c3La : Location := { file := "a:1", line := none, element := "b" }

/-- See `c3La`. -/
def c3Lb : Location := { file := "a", line := some 1, element := ":b" }

/-- Eligible finding whose first location has an empty element name but
whose second location carries `"x"`. -/
def c4F1 : NormalizedIssue :=
  mkIssue "missing-zero-check" "Low"
    [ { file := "f", line := none, element := "" },
      { file := "f", line := some 1, element := "x" } ]

/-- Eligible finding whose only location carries element `"x"`. -/
def c4F2 : NormalizedIssue :=
  mkIssue "missing-zero-check" "Low" [{ file := "g", line := none, element := "x" }]

/-- Eligible pair with distinct primary elements (for the witness). -/
def c4W1 : NormalizedIssue :=
  mkIssue "missing-zero-check" "Low" [{ file := "f", line := none, element := "x" }]

/-- See `c4W1`. -/
def c4W2 : NormalizedIssue :=
  mkIssue "missing-zero-check" "Low" [{ file := "g", line := none, element := "y" }]

/-- A groupable High finding appearing *before* a non-groupable High
finding in the input. -/
def c5F1 : NormalizedIssue :=
  mkIssue "missing-zero-check" "High" [{ file := "f", line := none, element := "x" }]

/-- See `c5F1`. -/
def c5F2 : NormalizedIssue := mkIssue "other-check" "High" []

/-- A single High finding of an unknown check whose description embeds a
newline followed by a sub-heading marker; the renderer echoes the
description verbatim into its `- Issue:` line. -/
def c6InjItem : NormalizedIssue :=
  { mkIssue "weird-check" "High" [] with description := "x\n## y" }

/-- Newline-free findings for the witness: two High, one Low. -/
def c6WitItems : List NormalizedIssue :=
  [ mkIssue "a-check" "High" [{ file := "f.sol", line := some 3, element := "g()" }],
    mkIssue "controlled-delegatecall" "High" [],
    mkIssue "b-check" "Low" [] ]

/-- First finding of the non-idempotence pair: its first non-empty element
(`"x::"`) sits on a location whose key collides with the earlier
empty-element location, so the merged (deduplicated) location list loses
it and the stored group key no longer matches its recomputed key. -/
def c8G1 : NormalizedIssue :=
  mkIssue "missing-zero-check" "Low"
    [ { file := "f:1:x", line := none, element := "" },
      { file := "f", line := some 1, element := "x::" } ]

/-- Second finding of the non-idempotence pair, in the `""`-element group. -/
def c8G2 : NormalizedIssue :=
  mkIssue "missing-zero-check" "Low" [{ file := "g", line := none, element := "" }]

/-- Collision-free eligible findings for the idempotence witness. -/
def c8WitItems : List NormalizedIssue :=
  [ mkIssue "missing-zero-check" "Low" [{ file := "f", line := none, element := "x" }],
    mkIssue "missing-zero-check" "Low" [{ file := "g", line := some 2, element := "x" }],
    mkIssue "other-check" "Low" [] ]

/-- A non-empty list whose only finding carries an unrecognized impact. -/
def c10Items : List NormalizedIssue := [mkIssue "some-check" "Critical" []]

/- ───────────────────────── shared lemmas ───────────────────────── -/

theorem str_ext {a b : String} (h : a.data = b.data) : a = b :=
  congrArg String.mk h

theorem str_append_right_inj (p : String) {a b : String} (h : p ++ a = p ++ b) : a = b := by
  have h2 := congrArg String.data h
  rw [String.data_append, String.data_append] at h2
  exact str_ext (List.append_cancel_left h2)

theorem band_true {a b : Bool} (h : (a && b) = true) : a = true ∧ b = true := by
  simp only [Bool.and_eq_true] at h
  exact h

/- ───────────────────────── Claim C7 ───────────────────────── -/

/-- Claim C7: the Validator's mandatory-sentence check — the validator
never accepts a candidate that fails the writes-after-call sentence check,
and that check fails exactly when some finding's `writesAfterCall` fact is
set while the candidate does not contain the fixed sentence verbatim (so
it passes for every candidate containing the sentence, and never causes
rejection when no finding has the fact set). -/
theorem validator_mandatory_sentence (md : String) (items : List NormalizedIssue) :
    (validateOrFallback md items && missingWritesAfterCallSentence md items) = false
    ∧ missingWritesAfterCallSentence md items =
        (items.any (fun i => i.facts.writesAfterCall) && !(strIncludes md mandatorySentence)) := by
  have hm : missingWritesAfterCallSentence md items =
      (items.any (fun i => i.facts.writesAfterCall) && !(strIncludes md mandatorySentence)) := by
    unfold missingWritesAfterCallSentence
    cases items.any (fun i => i.facts.writesAfterCall) <;> simp
  refine ⟨?_, hm⟩
  unfold validateOrFallback
  cases hw : missingWritesAfterCallSentence md items
  · simp
  · simp [hw]

/- ───────────────────────── Claim C2 ───────────────────────── -/

/-- Claim C2 counterexample: in generator mode (no `AUDIT_RENDERER`
override), a transport-level failure of the generator call is propagated
by `runAudit` (there is no try/catch around the `fetch`), instead of
producing the Deterministic Renderer's output. -/
theorem renderPhase_transport_error_cex :
    renderPhase "0xCAFE" c2Items none (Except.error "ECONNREFUSED")
        = Except.error "ECONNREFUSED"
    ∧ renderPhase "0xCAFE" c2Items none (Except.error "ECONNREFUSED")
        ≠ Except.ok (renderMarkdownDeterministic "0xCAFE" c2Items) := by
  refine ⟨rfl, ?_⟩
  intro h
  exact Except.noConfusion h

/-- Claim C2 amended: a transport-level failure of the generator call
propagates to the caller unchanged; only a generator reply that actually
arrives but fails validation (including a reply with no response text)
makes the Orchestrator return the Deterministic Renderer's output without
error. -/
theorem renderPhase_amended (address : String) (items : List NormalizedIssue)
    (e : String) (resp : OllamaResponse)
    (h : validateOrFallback (resp.response.getD "") items = false) :
    renderPhase address items none (Except.error e) = Except.error e
    ∧ renderPhase address items none (Except.ok resp)
        = Except.ok (renderMarkdownDeterministic address items) := by
  refine ⟨rfl, ?_⟩
  unfold renderPhase
  simp [h]

/-- Claim C2 witness: the amended behaviour at a concrete run — a reply
carrying no text fails validation against one High finding, so the
generator path falls back to the deterministic output, while a transport
error is returned as an error. -/
theorem renderPhase_amended_witness :
    validateOrFallback (c2Resp.response.getD "") c2Items = false
    ∧ renderPhase "0xCAFE" c2Items none (Except.error "timeout") = Except.error "timeout"
    ∧ renderPhase "0xCAFE" c2Items none (Except.ok c2Resp)
        = Except.ok (renderMarkdownDeterministic "0xCAFE" c2Items) :=
  ⟨by decide, (renderPhase_amended "0xCAFE" c2Items "timeout" c2Resp (by decide)).1,
    (renderPhase_amended "0xCAFE" c2Items "timeout" c2Resp (by decide)).2⟩

/- ───────────────────────── Claim C3 ───────────────────────── -/

/-- Claim C3 counterexample: the Location Deduplicator drops `c3Lb` even
though it differs from every earlier location in the list — its serialized
key `"a:1::b"` collides with `c3La`'s because `:` may occur inside the
`file` and `element` fields themselves. -/
theorem uniqueLocations_collision_cex :
    uniqueLocations [c3La, c3Lb] = [c3La]
    ∧ c3La ≠ c3Lb
    ∧ locKey c3La = locKey c3Lb := by
  refine ⟨rfl, by decide, rfl⟩

/-- Claim C3 amended: the Location Deduplicator keeps a location if and
only if no earlier location in the list has an equal serialized
`file:line:element` key (absent line serialized as the empty string);
equality of keys, not of the triples themselves, is what decides
dropping. -/
theorem uniqueLocations_eq_spec (locs : List Location) :
    uniqueLocations locs = specUniqByKey locs := by
  suffices h : ∀ (rest : List Location) (prev : List Location) (seen : List String),
      (∀ k, k ∈ seen ↔ ∃ p ∈ prev, locKey p = k) →
      uniqAux rest seen = specKeptAux prev rest by
    exact h locs [] [] (by simp)
  intro rest
  induction rest with
  | nil => intro prev seen _; rfl
  | cons l tl ih =>
    intro prev seen hinv
    have hmem : (locKey l ∈ seen) ↔ (prev.any (fun p => locKey p == locKey l) = true) := by
      rw [hinv, List.any_eq_true]
      constructor
      · rintro ⟨p, hp, he⟩; exact ⟨p, hp, by simpa using he⟩
      · rintro ⟨p, hp, he⟩; exact ⟨p, hp, by simpa using he⟩
    have hinv' : ∀ k, k ∈ (locKey l :: seen) ↔ ∃ p ∈ prev ++ [l], locKey p = k := by
      intro k
      simp only [List.mem_cons, List.mem_append, List.not_mem_nil, or_false, hinv k]
      constructor
      · rintro (h | ⟨p, hp, he⟩)
        · exact ⟨l, Or.inr rfl, h.symm⟩
        · exact ⟨p, Or.inl hp, he⟩
      · rintro ⟨p, hp | hp, he⟩
        · exact Or.inr ⟨p, hp, he⟩
        · subst hp; exact Or.inl he.symm
    unfold uniqAux specKeptAux
    by_cases hs : locKey l ∈ seen
    · rw [if_pos hs, if_pos (hmem.mp hs)]
      -- the seen set is unchanged on a drop, but prev grows: re-establish
      have hinv2 : ∀ k, k ∈ seen ↔ ∃ p ∈ prev ++ [l], locKey p = k := by
        intro k
        constructor
        · intro hk
          exact (hinv' k).mp (List.mem_cons_of_mem _ hk)
        · rintro ⟨p, hp, he⟩
          rcases List.mem_append.mp hp with hp | hp
          · exact (hinv k).mpr ⟨p, hp, he⟩
          · rcases List.mem_cons.mp hp with hp | hp
            · subst hp; rw [← he]; exact hs
            · exact absurd hp (List.not_mem_nil p)
      exact ih (prev ++ [l]) seen hinv2
    · rw [if_neg hs, if_neg (by rw [← hmem]; exact hs)]
      exact congrArg (l :: ·) (ih (prev ++ [l]) (locKey l :: seen) hinv')

/- ───────────────────────── Claim C4 ───────────────────────── -/

/-- Claim C4 counterexample: the Grouper merges `c4F1` and `c4F2` into one
finding although the claim's keys — (check, element of the *first*
location) — differ: `c4F1`'s first location has an empty element name and
the code skips it (`locations.find((l) => l.element)` keeps only truthy
elements). -/
theorem grouper_key_cex :
    (groupByCheckAndElement [c4F1, c4F2]).length = 1
    ∧ specClaimKey c4F1 ≠ specClaimKey c4F2
    ∧ c4F1.locations ≠ [] := by
  refine ⟨rfl, by decide, by decide⟩

/-- Claim C4 amended: two eligible findings are merged into a single group
exactly when they agree on the pair (check identifier, primary symbol),
where the primary symbol is the element name of the first location whose
element name is non-empty (the empty string when there is none). -/
theorem grouper_key_pair (f1 f2 : NormalizedIssue)
    (h1 : f1.check = "missing-zero-check") (h2 : f2.check = "missing-zero-check") :
    (groupByCheckAndElement [f1, f2]).length = 1
      ↔ firstElem f1.locations = firstElem f2.locations := by
  have e1 : groupEligible f1 = true := by simp [groupEligible, h1]
  have e2 : groupEligible f2 = true := by simp [groupEligible, h2]
  unfold groupByCheckAndElement groupFold
  by_cases hk : groupKey f1 = groupKey f2
  · have hfe : firstElem f1.locations = firstElem f2.locations := by
      unfold groupKey at hk
      rw [h1, h2] at hk
      exact str_append_right_inj _ hk
    simp [List.foldl, e1, e2, upsert, hk, hfe]
  · have hfe : firstElem f1.locations ≠ firstElem f2.locations := by
      intro h
      exact hk (by unfold groupKey; rw [h1, h2, h])
    simp [List.foldl, e1, e2, upsert, hk, hfe]

/-- Claim C4 witness: the amended criterion at a concrete eligible pair
with distinct primary symbols: not merged. -/
theorem grouper_key_pair_witness :
    c4W1.check = "missing-zero-check"
    ∧ ((groupByCheckAndElement [c4W1, c4W2]).length = 1
        ↔ firstElem c4W1.locations = firstElem c4W2.locations) :=
  ⟨rfl, grouper_key_pair c4W1 c4W2 rfl rfl⟩

/- ───────────────────────── Claim C9 ───────────────────────── -/

/-- Claim C9: the Knowledge Enricher resolves the missing-zero-check
identifier to absent for every description, never reaching the phrase
heuristics; and in general the enricher equals the explicit identifier
table when the check is listed there (so the description-based heuristics
are consulted exactly when the check identifier is unrecognized). -/
theorem enrich_explicit_table {α : Type} (reg : String → Option α)
    (check : String) (d : Option String) :
    enrichWithSWC reg "missing-zero-check" d = none
    ∧ enrichWithSWC reg check d =
        (if explicitCheckB check then swcTableLookup reg check
         else enrichWithSWCByDescription reg d) := by
  refine ⟨rfl, ?_⟩
  unfold enrichWithSWC explicitCheckB swcTableLookup
  by_cases h1 : check = "controlled-delegatecall"
  · subst h1; rfl
  by_cases h2 : check = "reentrancy-no-eth"
  · subst h2; rfl
  by_cases h3 : check = "reentrancy-benign"
  · subst h3; rfl
  by_cases h4 : check = "low-level-calls"
  · subst h4; rfl
  by_cases h5 : check = "missing-zero-check"
  · subst h5; rfl
  have b1 : (check == "controlled-delegatecall") = false := by simpa using h1
  have b2 : (check == "reentrancy-no-eth") = false := by simpa using h2
  have b3 : (check == "reentrancy-benign") = false := by simpa using h3
  have b4 : (check == "low-level-calls") = false := by simpa using h4
  have b5 : (check == "missing-zero-check") = false := by simpa using h5
  simp [b1, b2, b3, b4, b5, h1, h2, h3, h4, h5, List.contains]

/- ───────────────────────── Claim C10 ───────────────────────── -/

/-- Every severity of the fixed order is recognized. -/
theorem recognized_of_mem : ∀ sev ∈ impactOrder, recognizedB sev = true := by decide

/-- Filtering away unrecognized impacts does not change any of the four
severity buckets. -/
theorem bucket_filter_recognized (items : List NormalizedIssue) (sev : String)
    (h : sev ∈ impactOrder) :
    bucket (items.filter (fun i => recognizedB i.impact)) sev = bucket items sev := by
  unfold bucket
  rw [List.filter_filter]
  refine List.filter_congr (fun i _ => ?_)
  cases hiq : (i.impact == sev) with
  | false => simp [hiq]
  | true =>
    have he : i.impact = sev := by simpa using hiq
    simp [hiq, he, recognized_of_mem sev h]

/-- Claim C10: findings with an impact outside the four severities
contribute nothing to the renderer's output (they land in a bucket the
fixed order never reads), and a non-empty list made only of such findings
renders exactly the fixed no-vulnerabilities sentence — indistinguishable
from the empty input. -/
theorem renderer_unrecognized_impacts (address : String) (items : List NormalizedIssue) :
    renderMarkdownDeterministic address items
      = renderMarkdownDeterministic address (items.filter (fun i => recognizedB i.impact))
    ∧ (items ≠ [] → (∀ i ∈ items, recognizedB i.impact = false) →
        renderMarkdownDeterministic address items = noVulnSentence address
        ∧ renderMarkdownDeterministic address items = renderMarkdownDeterministic address []) := by
  constructor
  · have hsec : renderSections (items.filter (fun i => recognizedB i.impact))
        = renderSections items := by
      unfold renderSections
      have hfil : impactOrder.filter
            (fun sev => !(bucket (items.filter (fun i => recognizedB i.impact)) sev).isEmpty)
          = impactOrder.filter (fun sev => !(bucket items sev).isEmpty) :=
        List.filter_congr (fun sev hs => by rw [bucket_filter_recognized items sev hs])
      rw [hfil]
      refine congrArg joinNl (List.map_congr_left (fun sev hs => ?_))
      unfold sectionFor
      rw [bucket_filter_recognized items sev (List.mem_of_mem_filter hs)]
    unfold renderMarkdownDeterministic
    rw [hsec]
  · intro _ hall
    have hb : ∀ sev ∈ impactOrder, bucket items sev = [] := by
      intro sev hs
      unfold bucket
      rw [List.filter_eq_nil_iff]
      intro i hi hq
      have he : i.impact = sev := by simpa using hq
      have := hall i hi
      rw [he, recognized_of_mem sev hs] at this
      exact Bool.noConfusion this
    have hsec : renderSections items = "" := by
      unfold renderSections
      have hfil : impactOrder.filter (fun sev => !(bucket items sev).isEmpty) = [] := by
        rw [List.filter_eq_nil_iff]
        intro sev hs
        rw [hb sev hs]
        simp
      rw [hfil]
      rfl
    constructor
    · unfold renderMarkdownDeterministic
      rw [hsec]
      rfl
    · unfold renderMarkdownDeterministic
      rw [hsec]
      rfl

/-- Claim C10 witness: one finding with impact `"Critical"`: the renderer
output equals the no-vulnerabilities sentence and the empty-input
output. -/
theorem renderer_unrecognized_impacts_witness :
    c10Items ≠ [] ∧ (∀ i ∈ c10Items, recognizedB i.impact = false)
    ∧ renderMarkdownDeterministic "0xB" c10Items = noVulnSentence "0xB"
    ∧ renderMarkdownDeterministic "0xB" c10Items = renderMarkdownDeterministic "0xB" [] :=
  ⟨by decide, by decide,
    ((renderer_unrecognized_impacts "0xB" c10Items).2 (by decide) (by decide)).1,
    ((renderer_unrecognized_impacts "0xB" c10Items).2 (by decide) (by decide)).2⟩

/- ───────────────────────── Claim C1 ───────────────────────── -/

/-- Claim C1 counterexample: the validator accepts `c1CexMd` against two
High findings and one Medium finding, although the High *section* of the
candidate (which ends at the Medium heading) contains a single
sub-heading: `md.split(^# High Impact Findings$)[1]` runs to the end of
the document, so the Medium section's sub-heading is counted as High. -/
theorem validator_counts_cex :
    validateOrFallback c1CexMd c1CexItems = true
    ∧ specSectionSubCount c1CexMd "High" = 1
    ∧ countsByImpact c1CexItems "High" = 2 := by
  refine ⟨by decide, by decide, by decide⟩

/-- Claim C1 amended: the validator accepts a candidate only if, for each
of the four severities, the number of sub-headings found *after* that
severity's heading line — up to the next occurrence of the same heading or
the end of the document, taking the larger of the two heading depths —
equals the number of findings of that severity. -/
theorem validator_accept_counts (md : String) (items : List NormalizedIssue)
    (h : validateOrFallback md items = true) :
    ∀ sev ∈ impactOrder, countsByImpact items sev = parseCountsFromMarkdown md sev := by
  unfold validateOrFallback at h
  simp only [Bool.and_eq_true, List.all_eq_true] at h
  intro sev hs
  have := h.1.1 sev hs
  simpa using this

/-- Claim C1 witness: a concrete accepted candidate whose counts match. -/
theorem validator_accept_counts_witness :
    validateOrFallback c1WitMd c1WitItems = true
    ∧ ∀ sev ∈ impactOrder, countsByImpact c1WitItems sev = parseCountsFromMarkdown c1WitMd sev :=
  ⟨by decide, validator_accept_counts c1WitMd c1WitItems (by decide)⟩

/- ───────────────────────── Claim C5 ───────────────────────── -/

/-- Unfolding step of `dedupFirstAux` on a cons. -/
theorem dedupFirstAux_cons (seen : List String) (k : String) (rest : List String) :
    dedupFirstAux seen (k :: rest)
      = if k ∈ seen then dedupFirstAux seen rest else k :: dedupFirstAux (k :: seen) rest := rfl

theorem upsert_keys (acc : List (String × NormalizedIssue)) (k : String)
    (it : NormalizedIssue) :
    (upsert acc k it).map Prod.fst =
      (if k ∈ acc.map Prod.fst then acc.map Prod.fst else acc.map Prod.fst ++ [k]) := by
  induction acc with
  | nil => simp [upsert]
  | cons hd tl ih =>
    obtain ⟨k', g⟩ := hd
    unfold upsert
    by_cases hk : k' = k
    · subst hk
      simp
    · rw [if_neg hk]
      simp only [List.map_cons, ih]
      by_cases hm : k ∈ tl.map Prod.fst
      · rw [if_pos hm, if_pos (List.mem_cons_of_mem _ hm)]
      · rw [if_neg hm, if_neg (fun hc => by
          rcases List.mem_cons.mp hc with h | h
          · exact hk h.symm
          · exact hm h)]
        rfl

/-- First-occurrence deduplication only depends on the membership of the
seen set. -/
theorem dedupFirstAux_congr (ks : List String) :
    ∀ (s1 s2 : List String), (∀ x, x ∈ s1 ↔ x ∈ s2) →
      dedupFirstAux s1 ks = dedupFirstAux s2 ks := by
  induction ks with
  | nil => intro _ _ _; rfl
  | cons k tl ih =>
    intro s1 s2 h
    unfold dedupFirstAux
    by_cases hk : k ∈ s1
    · rw [if_pos hk, if_pos ((h k).mp hk)]
      exact ih s1 s2 h
    · rw [if_neg hk, if_neg (fun hc => hk ((h k).mpr hc))]
      refine congrArg (k :: ·) (ih (k :: s1) (k :: s2) (fun x => ?_))
      simp [List.mem_cons, h x]

/-- The keys produced by the grouping fold, relative to an arbitrary
accumulator: the accumulator's keys followed by the first-occurrence
deduplication of the eligible items' keys. -/
theorem groupFold_keys_aux (todo : List NormalizedIssue) :
    ∀ (acc : List (String × NormalizedIssue)),
      ((todo.foldl (fun acc it =>
          if groupEligible it then upsert acc (groupKey it) it else acc) acc).map Prod.fst)
        = acc.map Prod.fst
            ++ dedupFirstAux (acc.map Prod.fst) ((todo.filter groupEligible).map groupKey) := by
  induction todo with
  | nil => intro acc; simp [dedupFirstAux]
  | cons it tl ih =>
    intro acc
    rw [List.foldl_cons]
    cases hel : groupEligible it with
    | false =>
      have hf : List.filter groupEligible (it :: tl) = List.filter groupEligible tl := by
        simp [List.filter_cons, hel]
      rw [hf]
      simp only [hel, Bool.false_eq_true, if_false]
      exact ih acc
    | true =>
      have hf : List.filter groupEligible (it :: tl) = it :: List.filter groupEligible tl := by
        simp [List.filter_cons, hel]
      rw [hf]
      simp only [hel, if_true, List.map_cons]
      rw [ih (upsert acc (groupKey it) it), upsert_keys acc (groupKey it) it,
        dedupFirstAux_cons]
      by_cases hk : groupKey it ∈ acc.map Prod.fst
      · rw [if_pos hk, if_pos hk]
      · rw [if_neg hk, if_neg hk]
        rw [dedupFirstAux_congr _ (acc.map Prod.fst ++ [groupKey it])
          (groupKey it :: acc.map Prod.fst) (fun x => by simp [or_comm])]
        simp [List.append_assoc]

/-- Claim C5 counterexample: a groupable finding placed before a
non-groupable one of the same severity is emitted *after* it — the High
section's order `[c5F2, c5F1]` inverts the input order `[c5F1, c5F2]`,
because the grouped map's values are appended after all passthrough
items. -/
theorem grouper_order_cex :
    c5F1.impact = "High" ∧ c5F2.impact = "High"
    ∧ groupByCheckAndElement [c5F1, c5F2] = [c5F2, c5F1]
    ∧ bucket (groupByCheckAndElement [c5F1, c5F2]) "High" = [c5F2, c5F1]
    ∧ c5F1 ≠ c5F2 := by
  refine ⟨rfl, rfl, by decide, by decide, by decide⟩

/-- Claim C5 amended: each severity section of the report lists first the
non-grouped findings of that severity in stable input order (an
order-preserving filter of the input), then the merged grouped findings,
whose keys appear in order of first occurrence among the eligible items;
grouped findings always follow all non-grouped ones. -/
theorem grouper_section_order (items : List NormalizedIssue) (sev : String) :
    bucket (groupByCheckAndElement items) sev
      = bucket (items.filter (fun it => !(groupEligible it))) sev
        ++ bucket ((groupFold items).map Prod.snd) sev
    ∧ (groupFold items).map Prod.fst
        = dedupFirstKeys ((items.filter groupEligible).map groupKey) := by
  constructor
  · unfold groupByCheckAndElement bucket
    exact List.filter_append _ _
  · unfold groupFold dedupFirstKeys
    simpa using groupFold_keys_aux items []

/- ──────────────────── line-structure lemmas (Claim C6) ──────────────────── -/

theorem strSplitNl_cons (c : Char) (rest : List Char) :
    strSplitNl (c :: rest) = (match strSplitNl rest with
      | [] => [[c]]
      | l :: ls => if c = '\n' then [] :: l :: ls else (c :: l) :: ls) := rfl

theorem strSplitNl_ne_nil (cs : List Char) : strSplitNl cs ≠ [] := by
  cases cs with
  | nil => simp [strSplitNl]
  | cons c rest =>
    rw [strSplitNl_cons]
    rcases h : strSplitNl rest with _ | ⟨l, ls⟩
    · simp
    · by_cases hc : c = '\n' <;> simp [hc]

theorem strSplitNl_append (xs ys : List Char) :
    strSplitNl (xs ++ '\n' :: ys) = strSplitNl xs ++ strSplitNl ys := by
  induction xs with
  | nil =>
    rcases h : strSplitNl ys with _ | ⟨l, ls⟩
    · exact absurd h (strSplitNl_ne_nil ys)
    · simp only [List.nil_append, strSplitNl_cons, h]
      simp [strSplitNl]
  | cons c xs ih =>
    rcases h : strSplitNl xs with _ | ⟨l, ls⟩
    · exact absurd h (strSplitNl_ne_nil xs)
    · simp only [List.cons_append, strSplitNl_cons, ih, h]
      by_cases hc : c = '\n' <;> simp [hc]

theorem strSplitNl_of_not_mem {cs : List Char} (h : '\n' ∉ cs) : strSplitNl cs = [cs] := by
  induction cs with
  | nil => rfl
  | cons c rest ih =>
    have hc : ¬(c = '\n') := fun he => h (he ▸ List.mem_cons_self c rest)
    have hr : '\n' ∉ rest := fun hm => h (List.mem_cons_of_mem c hm)
    rw [strSplitNl_cons, ih hr]
    simp [hc]

theorem noNl_iff {s : String} : noNl s = true ↔ '\n' ∉ s.data := by
  unfold noNl
  simp

theorem noNl_append {a b : String} (ha : noNl a = true) (hb : noNl b = true) :
    noNl (a ++ b) = true := by
  rw [noNl_iff] at *
  rw [String.data_append]
  intro hm
  rcases List.mem_append.mp hm with h | h
  · exact ha h
  · exact hb h

theorem mdLines_append_nl (a b : String) : mdLines (a ++ "\n" ++ b) = mdLines a ++ mdLines b := by
  unfold mdLines
  have hd : (a ++ "\n" ++ b).data = a.data ++ '\n' :: b.data := by
    rw [String.data_append, String.data_append, List.append_assoc]
    rfl
  rw [hd, strSplitNl_append, List.map_append]

theorem mdLines_nl_end (a : String) : mdLines (a ++ "\n") = mdLines a ++ [""] := by
  unfold mdLines
  have hd : (a ++ "\n").data = a.data ++ '\n' :: [] := String.data_append a "\n"
  rw [hd, strSplitNl_append, List.map_append]
  rfl

theorem mdLines_of_noNl {s : String} (h : noNl s = true) : mdLines s = [s] := by
  unfold mdLines
  rw [strSplitNl_of_not_mem (noNl_iff.mp h)]
  rfl

theorem joinNl_cons₂ (s t : String) (tl : List String) :
    joinNl (s :: t :: tl) = s ++ "\n" ++ joinNl (t :: tl) := rfl

theorem mdLines_joinNl (s : String) (rest : List String) :
    mdLines (joinNl (s :: rest)) = mdLines s ++ (rest.map mdLines).flatten := by
  induction rest generalizing s with
  | nil => simp only [joinNl, List.map_nil, List.flatten_nil, List.append_nil]
  | cons t tl ih =>
    rw [joinNl_cons₂, mdLines_append_nl, ih t]
    simp only [List.map_cons, List.flatten_cons, List.append_assoc]

theorem digitChar_lt_ne_nl : ∀ m < 10, Nat.digitChar m ≠ '\n' := by decide

theorem toDigitsCore10_ne_nl (fuel : Nat) :
    ∀ (n : Nat) (ds : List Char), (∀ c ∈ ds, c ≠ '\n') →
      ∀ c ∈ Nat.toDigitsCore 10 fuel n ds, c ≠ '\n' := by
  induction fuel with
  | zero => intro n ds h c hc; exact h c (by simpa [Nat.toDigitsCore] using hc)
  | succ fu ih =>
    intro n ds h c hc
    simp only [Nat.toDigitsCore] at hc
    have hds : ∀ c' ∈ (n % 10).digitChar :: ds, c' ≠ '\n' := by
      intro c' hc'
      rcases List.mem_cons.mp hc' with h1 | h1
      · exact h1 ▸ digitChar_lt_ne_nl (n % 10) (Nat.mod_lt _ (by decide))
      · exact h c' h1
    by_cases hz : n / 10 = 0
    · rw [if_pos hz] at hc
      exact hds c hc
    · rw [if_neg hz] at hc
      exact ih (n / 10) ((n % 10).digitChar :: ds) hds c hc

theorem noNl_natToString (n : Nat) : noNl (toString n) = true := by
  rw [noNl_iff]
  show '\n' ∉ (Nat.repr n).data
  unfold Nat.repr
  intro hm
  have h10 : ∀ c ∈ Nat.toDigits 10 n, c ≠ '\n' := by
    unfold Nat.toDigits
    exact toDigitsCore10_ne_nl (n + 1) n [] (by intro c hc; exact absurd hc (List.not_mem_nil c))
  exact h10 '\n' (by simpa [List.asString] using hm) rfl

theorem okLine_not_lineStarts {l : String} (h : okLine l = true) (pre : String)
    (hp : pre.data.head? = some '#') : lineStarts l pre = false := by
  unfold lineStarts
  rcases hpre : pre.data with _ | ⟨pc, pt⟩
  · rw [hpre] at hp; simp at hp
  · rw [hpre] at hp
    have hpc : pc = '#' := by simpa using hp
    subst hpc
    rcases hl : l.data with _ | ⟨lc, lt⟩
    · rfl
    · have hlc : ¬(lc = '#') := by
        unfold okLine at h
        rw [hl] at h
        simpa using h
      rw [List.isPrefixOf_cons₂]
      have hb : (('#' : Char) == lc) = false := by
        simpa using fun he : ('#' : Char) = lc => hlc he.symm
      rw [hb]
      rfl

theorem heading_shape {sev l : String} (h : isSevHeadingLine sev l = true) :
    ∃ t, l.data = '#' :: ' ' :: t := by
  unfold isSevHeadingLine at h
  have heq : dropTrailingWs l = sevHeading sev := by simpa using h
  have hpre : (dropTrailingWs l).data <+: l.data := by
    unfold dropTrailingWs
    show ((l.data.reverse.dropWhile jsSpace).reverse : List Char) <+: l.data
    have hsuf : l.data.reverse.dropWhile jsSpace <:+ l.data.reverse :=
      List.dropWhile_suffix _
    have := List.reverse_prefix.mpr hsuf
    simpa using this
  rw [heq] at hpre
  rcases hpre with ⟨t2, ht⟩
  refine ⟨sev.data ++ " Impact Findings".data ++ t2, ?_⟩
  rw [← ht]
  show ((("# " ++ sev) ++ " Impact Findings").data ++ t2) = _
  rw [String.data_append, String.data_append]
  simp

theorem not_heading_of_okLine {sev l : String} (h : okLine l = true) :
    isSevHeadingLine sev l = false := by
  cases hd : isSevHeadingLine sev l with
  | false => rfl
  | true =>
    exfalso
    rcases heading_shape hd with ⟨t, ht⟩
    unfold okLine at h
    rw [ht] at h
    simp at h

theorem lineStarts_of_heading {sev l : String} (h : isSevHeadingLine sev l = true) :
    lineStarts l "# " = true := by
  rcases heading_shape h with ⟨t, ht⟩
  unfold lineStarts
  rw [ht]
  show (['#', ' '] : List Char).isPrefixOf ('#' :: ' ' :: t) = true
  simp [List.isPrefixOf_cons₂, List.isPrefixOf]

theorem subheading_lineStarts (t : String) :
    lineStarts ("## " ++ t) "## " = true
    ∧ lineStarts ("## " ++ t) "### " = false
    ∧ lineStarts ("## " ++ t) "# " = false := by
  have hb1 : (('#' : Char) == ' ') = false := by decide
  have hb2 : ((' ' : Char) == '#') = false := by decide
  refine ⟨?_, ?_, ?_⟩
  · unfold lineStarts
    rw [String.data_append]
    show (['#', '#', ' '] : List Char).isPrefixOf ('#' :: '#' :: ' ' :: t.data) = true
    simp [List.isPrefixOf_cons₂, List.isPrefixOf]
  · unfold lineStarts
    rw [String.data_append]
    show (['#', '#', '#'] : List Char).isPrefixOf ('#' :: '#' :: ' ' :: t.data) = false
    simp [List.isPrefixOf_cons₂, hb1]
  · unfold lineStarts
    rw [String.data_append]
    show (['#', ' '] : List Char).isPrefixOf ('#' :: '#' :: ' ' :: t.data) = false
    simp [List.isPrefixOf_cons₂, hb2]

theorem not_heading_of_subheading {sev t : String} :
    isSevHeadingLine sev ("## " ++ t) = false := by
  cases hd : isSevHeadingLine sev ("## " ++ t) with
  | false => rfl
  | true =>
    exfalso
    rcases heading_shape hd with ⟨r, hr⟩
    rw [String.data_append] at hr
    have h2 : ('#' :: '#' :: ' ' :: [] : List Char) ++ t.data = '#' :: ' ' :: r := hr
    simp at h2

/- ───────────────── renderOne line structure (Claim C6) ───────────────── -/

theorem head?_append {a b : String} {c : Char} (h : a.data.head? = some c) :
    (a ++ b).data.head? = some c := by
  rw [String.data_append]
  rcases ha : a.data with _ | ⟨x, xs⟩
  · rw [ha] at h; simp at h
  · rw [ha] at h
    simpa using h

theorem okLine_of_head {l : String} {c : Char} (hd : l.data.head? = some c)
    (hc : ¬(c = '#')) : okLine l = true := by
  unfold okLine
  rw [hd]
  simpa using fun he : c = '#' => hc he

/-- Every line of a newline-free string with a non-`#` head character is an
`okLine` (there is exactly one such line: the string itself). -/
theorem allOk_single {p : String} (hn : noNl p = true) (ho : okLine p = true) :
    ∀ l ∈ mdLines p, okLine l = true := by
  rw [mdLines_of_noNl hn]
  intro l hl
  rcases List.mem_cons.mp hl with rfl | hl
  · exact ho
  · exact absurd hl (List.not_mem_nil l)

theorem allOk_empty : ∀ l ∈ mdLines "", okLine l = true := by
  intro l hl
  have : l = "" := by
    simpa [mdLines, strSplitNl] using hl
  subst this
  decide

theorem allOk_joinNl (ps : List String)
    (h : ∀ p ∈ ps, ∀ l ∈ mdLines p, okLine l = true) :
    ∀ l ∈ mdLines (joinNl ps), okLine l = true := by
  cases ps with
  | nil => exact allOk_empty
  | cons p ps' =>
    rw [mdLines_joinNl]
    intro l hl
    rcases List.mem_append.mp hl with hl | hl
    · exact h p (List.mem_cons_self _ _) l hl
    · rw [List.mem_flatten] at hl
      obtain ⟨xs, hxs, hlxs⟩ := hl
      rw [List.mem_map] at hxs
      obtain ⟨q, hq, rfl⟩ := hxs
      exact h q (List.mem_cons_of_mem _ hq) l hlxs

theorem noNl_mainFile {locs : List Location} (h : ∀ lo ∈ locs, locNoNl lo = true) :
    noNl (mainFileOf locs) = true := by
  unfold mainFileOf
  rcases hh : locs.head? with _ | lo
  · decide
  · have hm : lo ∈ locs := by
      cases locs with
      | nil => simp at hh
      | cons a t =>
        have : a = lo := by simpa using hh
        exact this ▸ List.mem_cons_self a t
    have hx := h lo hm
    unfold locNoNl at hx
    exact (band_true hx).1

theorem noNl_firstElem {locs : List Location} (h : ∀ lo ∈ locs, locNoNl lo = true) :
    noNl (firstElem locs) = true := by
  unfold firstElem
  rcases hf : locs.find? (fun l => !(l.element == "")) with _ | lo
  · rw [hf]; decide
  · rw [hf]
    have hm : lo ∈ locs := List.mem_of_find?_eq_some hf
    have hx := h lo hm
    unfold locNoNl at hx
    exact (band_true hx).2

theorem noNl_elemDisp {locs : List Location} (h : ∀ lo ∈ locs, locNoNl lo = true) :
    noNl (elemDispOf locs) = true := by
  unfold elemDispOf
  by_cases hz : (firstElem locs == "") = true
  · rw [if_pos hz]; decide
  · rw [if_neg hz]
    exact noNl_firstElem h

theorem noNl_linePart (locs : List Location) : noNl (linePartOf locs) = true := by
  unfold linePartOf
  rcases lineOptOf locs with _ | n
  · decide
  · show noNl (if (n == 0) = true then "" else " (line " ++ toString n ++ ")") = true
    by_cases hz : (n == 0) = true
    · rw [if_pos hz]; decide
    · rw [if_neg hz]
      exact noNl_append (noNl_append (by decide) (noNl_natToString n)) (by decide)

theorem noNl_label (it : NormalizedIssue) : noNl (labelOf it) = true := by
  unfold labelOf
  split <;> decide

theorem noNl_friendlyTitle {check : String} (h : noNl check = true) :
    noNl (friendlyTitle check) = true := by
  unfold friendlyTitle
  split_ifs <;> first | decide | exact h

theorem noNl_riskOf {it : NormalizedIssue} (h : noNl it.description = true) :
    noNl (riskOf it) = true := by
  unfold riskOf
  split_ifs <;> first | decide | exact h

theorem noNl_remediationOf (it : NormalizedIssue) : noNl (remediationOf it) = true := by
  unfold remediationOf
  split_ifs <;> decide

theorem mem_formatLocsAux {r : String} :
    ∀ (locs : List Location) (seen : List String),
      r ∈ formatLocsAux locs seen → ∃ l ∈ locs, r = formatRow l := by
  intro locs
  induction locs with
  | nil => intro seen h; exact absurd h (List.not_mem_nil r)
  | cons lo tl ih =>
    intro seen h
    unfold formatLocsAux at h
    by_cases hs : locKey lo ∈ seen
    · rw [if_pos hs] at h
      obtain ⟨l, hl, he⟩ := ih seen h
      exact ⟨l, List.mem_cons_of_mem _ hl, he⟩
    · rw [if_neg hs] at h
      rcases List.mem_cons.mp h with rfl | h
      · exact ⟨lo, List.mem_cons_self _ _, rfl⟩
      · obtain ⟨l, hl, he⟩ := ih _ h
        exact ⟨l, List.mem_cons_of_mem _ hl, he⟩

theorem allOk_formatRow {lo : Location} (h : locNoNl lo = true) :
    ∀ l ∈ mdLines (formatRow lo), okLine l = true := by
  have hfe : (noNl lo.file && noNl lo.element) = true := by
    unfold locNoNl at h; exact h
  have hf : noNl lo.file = true := (band_true hfe).1
  have he : noNl lo.element = true := (band_true hfe).2
  refine allOk_single ?_ ?_
  · unfold formatRow
    refine noNl_append (noNl_append (noNl_append (by decide) hf) ?_) ?_
    · rcases lo.line with _ | n
      · decide
      · exact noNl_append (by decide) (noNl_natToString n)
    · by_cases hz : (lo.element == "") = true
      · rw [if_pos hz]; decide
      · rw [if_neg hz]
        exact noNl_append (noNl_append (by decide) he) (by decide)
  · exact okLine_of_head
      (head?_append (head?_append (head?_append (rfl : "  - ".data.head? = some ' ')))) (by decide)

theorem allOk_headerLines (it : NormalizedIssue)
    (hlocs : ∀ lo ∈ it.locations, locNoNl lo = true) :
    ∀ p ∈ headerLinesOf it, ∀ l ∈ mdLines p, okLine l = true := by
  intro p hp
  unfold headerLinesOf at hp
  rcases List.mem_cons.mp hp with rfl | hp
  · exact allOk_single (noNl_append (by decide) (noNl_mainFile hlocs))
      (okLine_of_head (head?_append (rfl : "- Contract: ".data.head? = some '-')) (by decide))
  by_cases hll : 1 < (formatLocations it.locations).length
  · rw [if_pos hll] at hp
    rcases List.mem_cons.mp hp with rfl | hp
    · exact allOk_single (by decide) (by decide)
    · obtain ⟨lo, hlo, rfl⟩ := mem_formatLocsAux it.locations [] hp
      exact allOk_formatRow (hlocs lo hlo)
  · rw [if_neg hll] at hp
    rcases List.mem_cons.mp hp with rfl | hp
    · refine allOk_single ?_ ?_
      · exact noNl_append (noNl_append (noNl_append (noNl_append
          (noNl_append (by decide) (noNl_label it)) (by decide))
          (noNl_elemDisp hlocs)) (by decide)) (noNl_linePart it.locations)
      · exact okLine_of_head
          (head?_append (head?_append (head?_append (head?_append
            (head?_append (rfl : "- ".data.head? = some '-')))))) (by decide)
    · exact absurd hp (List.not_mem_nil p)

theorem allOk_swcBlock (m : SWCMeta) (h : swcNoNl (some m) = true) :
    ∀ l ∈ mdLines (swcBlock m), okLine l = true := by
  have h' : ((((match m.id with | none => true | some s => noNl s) && noNl m.title)
      && noNl m.remediation) && m.references.all noNl) = true := by
    unfold swcNoNl at h; exact h
  have hid : (match m.id with | none => true | some s => noNl s) = true :=
    (band_true (band_true (band_true h').1).1).1
  have hti : noNl m.title = true := (band_true (band_true (band_true h').1).1).2
  have hre : noNl m.remediation = true := (band_true (band_true h').1).2
  have hrf : ∀ r ∈ m.references, noNl r = true :=
    List.all_eq_true.mp (band_true h').2
  unfold swcBlock
  refine allOk_joinNl _ ?_
  intro p hp
  have hne := (List.mem_filter.mp hp).2
  have hpm := (List.mem_filter.mp hp).1
  rcases List.mem_cons.mp hpm with rfl | hpm
  · -- the `- **SWC:** ...` line
    have hnid : noNl (match m.id with | none => "" | some s => if s == "" then "" else s ++ ": ")
        = true := by
      rcases hmid : m.id with _ | s
      · decide
      · have hid2 : noNl s = true := by rw [hmid] at hid; exact hid
        show noNl (if (s == "") = true then "" else s ++ ": ") = true
        by_cases hz : (s == "") = true
        · rw [if_pos hz]; decide
        · rw [if_neg hz]
          exact noNl_append hid2 (by decide)
    exact allOk_single (noNl_append (noNl_append (by decide) hnid) hti)
      (okLine_of_head (head?_append (head?_append
        (rfl : "- **SWC:** ".data.head? = some '-'))) (by decide))
  rcases List.mem_cons.mp hpm with rfl | hpm
  · -- the remediation line (or the dropped empty string)
    by_cases hz : (m.remediation == "") = true
    · rw [if_pos hz] at hne
      simp at hne
    · rw [if_neg hz] at hne ⊢
      exact allOk_single (noNl_append (by decide) hre)
        (okLine_of_head (head?_append
          (rfl : "- **SWC Remediation:** ".data.head? = some '-')) (by decide))
  rcases List.mem_cons.mp hpm with rfl | hpm
  · -- the references block
    by_cases hz : m.references.isEmpty = true
    · rw [if_pos hz] at hne
      simp at hne
    · rw [if_neg hz] at hne ⊢
      have hsplit : ("- **References:**\n"
            ++ joinNl (m.references.map (fun r => "  - " ++ r)))
          = "- **References:**" ++ "\n" ++ joinNl (m.references.map (fun r => "  - " ++ r)) :=
        rfl
      rw [hsplit, mdLines_append_nl]
      intro l hl
      rcases List.mem_append.mp hl with hl | hl
      · exact allOk_single (by decide) (by decide) l hl
      · refine allOk_joinNl _ ?_ l hl
        intro q hq
        rw [List.mem_map] at hq
        obtain ⟨r, hr, rfl⟩ := hq
        exact allOk_single (noNl_append (by decide) (hrf r hr))
          (okLine_of_head (head?_append (rfl : "  - ".data.head? = some ' ')) (by decide))
  · exact absurd hpm (List.not_mem_nil p)

/-- The line structure of one rendered finding: its own `## ` sub-heading
followed by lines that do not start with `#` at all. -/
theorem renderOne_lines (it : NormalizedIssue) (h : issueNoNl it = true) :
    ∃ body, mdLines (renderOne it) = ("## " ++ friendlyTitle it.check) :: body
      ∧ ∀ l ∈ body, okLine l = true := by
  have h' : ((((noNl it.check && noNl it.confidence) && noNl it.description)
      && it.locations.all locNoNl) && swcNoNl it.swc) = true := by
    unfold issueNoNl at h; exact h
  have hcheck : noNl it.check = true :=
    (band_true (band_true (band_true (band_true h').1).1).1).1
  have hconf : noNl it.confidence = true :=
    (band_true (band_true (band_true (band_true h').1).1).1).2
  have hdesc : noNl it.description = true := (band_true (band_true (band_true h').1).1).2
  have hlocs : ∀ lo ∈ it.locations, locNoNl lo = true :=
    List.all_eq_true.mp (band_true (band_true h').1).2
  have hswc : swcNoNl it.swc = true := (band_true h').2
  have hhead : noNl ("## " ++ friendlyTitle it.check) = true :=
    noNl_append (by decide) (noNl_friendlyTitle hcheck)
  have hml : mdLines (renderOne it) = ("## " ++ friendlyTitle it.check) ::
      ((headerLinesOf it ++ ["- Confidence: " ++ it.confidence, "- Issue: " ++ riskOf it,
        "- Recommendation: " ++ remediationOf it, swcStrOf it, ""]).map mdLines).flatten := by
    unfold renderOne renderSegs
    rw [mdLines_joinNl, mdLines_of_noNl hhead]
    rfl
  rw [hml]
  refine ⟨_, rfl, ?_⟩
  intro l hl
  rw [List.mem_flatten] at hl
  obtain ⟨xs, hxs, hlxs⟩ := hl
  rw [List.mem_map] at hxs
  obtain ⟨p, hp, rfl⟩ := hxs
  rcases List.mem_append.mp hp with hp | hp
  · exact allOk_headerLines it hlocs p hp l hlxs
  rcases List.mem_cons.mp hp with rfl | hp
  · exact allOk_single (noNl_append (by decide) hconf)
      (okLine_of_head (head?_append (rfl : "- Confidence: ".data.head? = some '-'))
        (by decide)) l hlxs
  rcases List.mem_cons.mp hp with rfl | hp
  · exact allOk_single (noNl_append (by decide) (noNl_riskOf hdesc))
      (okLine_of_head (head?_append (rfl : "- Issue: ".data.head? = some '-'))
        (by decide)) l hlxs
  rcases List.mem_cons.mp hp with rfl | hp
  · exact allOk_single (noNl_append (by decide) (noNl_remediationOf it))
      (okLine_of_head (head?_append (rfl : "- Recommendation: ".data.head? = some '-'))
        (by decide)) l hlxs
  rcases List.mem_cons.mp hp with rfl | hp
  · rcases hsw : it.swc with _ | m
    · have hsse : swcStrOf it = "" := by unfold swcStrOf; rw [hsw]
      rw [hsse] at hlxs
      exact allOk_empty l hlxs
    · have hsse : swcStrOf it = swcBlock m := by unfold swcStrOf; rw [hsw]
      rw [hsse] at hlxs
      rw [hsw] at hswc
      exact allOk_swcBlock m hswc l hlxs
  rcases List.mem_cons.mp hp with rfl | hp
  · exact allOk_empty l hlxs
  · exact absurd hp (List.not_mem_nil p)

/- ───────────── document assembly lemmas (Claim C6) ───────────── -/

theorem impactOrder_nodup : impactOrder.Nodup := by decide

theorem heading_self : ∀ sev ∈ impactOrder, isSevHeadingLine sev (sevHeading sev) = true := by
  decide

theorem heading_other : ∀ sev ∈ impactOrder, ∀ sev' ∈ impactOrder, sev ≠ sev' →
    isSevHeadingLine sev (sevHeading sev') = false := by decide

theorem heading_starts : ∀ sev ∈ impactOrder, lineStarts (sevHeading sev) "# " = true := by
  decide

theorem empty_line_not_heading : ∀ sev ∈ impactOrder, isSevHeadingLine sev "" = false := by
  decide

theorem noNl_sevHeading : ∀ sev ∈ impactOrder, noNl (sevHeading sev) = true := by decide

theorem sectionFor_mdLines (items : List NormalizedIssue) (sev : String)
    (hs : sev ∈ impactOrder) :
    mdLines (sectionFor items sev)
      = sevHeading sev :: "" :: mdLines (joinNl ((bucket items sev).map renderOne)) := by
  unfold sectionFor
  rw [mdLines_append_nl, mdLines_nl_end, mdLines_of_noNl (noNl_sevHeading sev hs)]
  rfl

theorem mdLines_joinNl_flatten {l : List String} (hne : l ≠ []) :
    mdLines (joinNl l) = (l.map mdLines).flatten := by
  cases l with
  | nil => exact absurd rfl hne
  | cons s rest =>
    rw [mdLines_joinNl]
    simp [List.map_cons, List.flatten_cons]

theorem sectionFor_lines_flat (items : List NormalizedIssue) (sev : String)
    (hs : sev ∈ impactOrder) (hb : bucket items sev ≠ []) :
    mdLines (sectionFor items sev)
      = sevHeading sev :: "" ::
          ((bucket items sev).map (fun it => mdLines (renderOne it))).flatten := by
  rw [sectionFor_mdLines items sev hs,
    mdLines_joinNl_flatten (by simpa using hb), List.map_map]
  rfl

/-- Counting and shape facts for the flattened body of one section. -/
theorem sectionBody_facts (its : List NormalizedIssue)
    (h : ∀ it ∈ its, issueNoNl it = true) :
    (∀ l ∈ (its.map (fun it => mdLines (renderOne it))).flatten,
        lineStarts l "# " = false ∧ ∀ sev, isSevHeadingLine sev l = false)
    ∧ (its.map (fun it => mdLines (renderOne it))).flatten.countP
        (fun l => lineStarts l "## ") = its.length
    ∧ (its.map (fun it => mdLines (renderOne it))).flatten.countP
        (fun l => lineStarts l "### ") = 0 := by
  induction its with
  | nil => exact ⟨by simp, by simp, by simp⟩
  | cons it tl ih =>
    have hhd := h it (List.mem_cons_self _ _)
    obtain ⟨ih1, ih2, ih3⟩ := ih (fun x hx => h x (List.mem_cons_of_mem _ hx))
    obtain ⟨body, hbody, hok⟩ := renderOne_lines it hhd
    have hbody0 : body.countP (fun l => lineStarts l "## ") = 0 := by
      rw [List.countP_eq_zero]
      intro l hl
      rw [okLine_not_lineStarts (hok l hl) "## " rfl]
      exact Bool.false_ne_true
    have hbody0' : body.countP (fun l => lineStarts l "### ") = 0 := by
      rw [List.countP_eq_zero]
      intro l hl
      rw [okLine_not_lineStarts (hok l hl) "### " rfl]
      exact Bool.false_ne_true
    simp only [List.map_cons, List.flatten_cons]
    refine ⟨?_, ?_, ?_⟩
    · intro l hl
      rcases List.mem_append.mp hl with hl | hl
      · rw [hbody] at hl
        rcases List.mem_cons.mp hl with rfl | hl
        · exact ⟨(subheading_lineStarts _).2.2, fun sev => not_heading_of_subheading⟩
        · exact ⟨okLine_not_lineStarts (hok l hl) "# " rfl,
            fun sev => not_heading_of_okLine (hok l hl)⟩
      · exact ih1 l hl
    · rw [List.countP_append, ih2, hbody, List.countP_cons, hbody0,
        (subheading_lineStarts (friendlyTitle it.check)).1]
      simp [Nat.add_comm]
    · rw [List.countP_append, ih3, hbody, List.countP_cons, hbody0',
        (subheading_lineStarts (friendlyTitle it.check)).2.1]
      simp

theorem dropThrough_cons (sev l : String) (rest : List String) :
    dropThroughHeading sev (l :: rest)
      = if isSevHeadingLine sev l then rest else dropThroughHeading sev rest := rfl

theorem dropThrough_append_none {sev : String} {xs : List String}
    (h : ∀ l ∈ xs, isSevHeadingLine sev l = false) (ys : List String) :
    dropThroughHeading sev (xs ++ ys) = dropThroughHeading sev ys := by
  induction xs with
  | nil => rfl
  | cons x xt ih =>
    have hx := h x (List.mem_cons_self _ _)
    rw [List.cons_append, dropThrough_cons, if_neg (by simp [hx])]
    exact ih (fun l hl => h l (List.mem_cons_of_mem _ hl))

theorem dropThrough_nil_of_none {sev : String} {xs : List String}
    (h : ∀ l ∈ xs, isSevHeadingLine sev l = false) :
    dropThroughHeading sev xs = [] := by
  induction xs with
  | nil => rfl
  | cons x xt ih =>
    have hx := h x (List.mem_cons_self _ _)
    rw [dropThrough_cons, if_neg (by simp [hx])]
    exact ih (fun l hl => h l (List.mem_cons_of_mem _ hl))

theorem takeWhile_append_all {p : String → Bool} {xs : List String}
    (h : ∀ x ∈ xs, p x = true) (ys : List String) :
    (xs ++ ys).takeWhile p = xs ++ ys.takeWhile p := by
  induction xs with
  | nil => rfl
  | cons x xt ih =>
    simp only [List.cons_append, List.takeWhile_cons,
      h x (List.mem_cons_self _ _), if_true]
    rw [ih (fun l hl => h l (List.mem_cons_of_mem _ hl))]

theorem joinNl_data_cons (s : String) (rest : List String) :
    ∃ t, (joinNl (s :: rest)).data = s.data ++ t := by
  cases rest with
  | nil => exact ⟨[], (List.append_nil _).symm⟩
  | cons t tl =>
    refine ⟨'\n' :: (joinNl (t :: tl)).data, ?_⟩
    rw [joinNl_cons₂, String.data_append, String.data_append, List.append_assoc]
    rfl

theorem sectionFor_data_hash (items : List NormalizedIssue) (sev : String) :
    ∃ u, (sectionFor items sev).data = '#' :: u := by
  unfold sectionFor
  refine ⟨(" " ++ sev ++ " Impact Findings" ++ "\n" ++ "\n"
    ++ joinNl ((bucket items sev).map renderOne)).data, ?_⟩
  simp only [String.data_append, sevHeading]
  rfl

/- ───────────────────────── Claim C6 ───────────────────────── -/

set_option maxRecDepth 8000 in
/-- Claim C6 counterexample: a single High finding of an unknown check
whose description embeds `"\n## y"` — the renderer echoes the description
into its `- Issue:` line, so the High section of the output contains two
sub-heading lines although the input has one High finding. -/
theorem renderer_counts_cex :
    c6InjItem.impact = "High"
    ∧ specSectionSubCount (renderMarkdownDeterministic "0xA" [c6InjItem]) "High" = 2
    ∧ countsByImpact [c6InjItem] "High" = 1 := by
  refine ⟨rfl, by decide, by decide⟩

/-- Claim C6 amended: for every finding set whose findings carry the four
severities and whose interpolated string fields — and the audited address —
are newline-free, the Deterministic Renderer's output contains, for each
severity, exactly as many finding sub-headings inside that severity's own
section (the lines before the next top-level heading) as there are
findings of that severity, and contains the severity's top-level heading
exactly when the severity has findings. -/
theorem renderer_section_counts (address : String) (items : List NormalizedIssue)
    (hnl : ∀ it ∈ items, issueNoNl it = true)
    (hrec : ∀ it ∈ items, recognizedB it.impact = true)
    (hadr : noNl address = true) :
    ∀ sev ∈ impactOrder,
      specSectionSubCount (renderMarkdownDeterministic address items) sev
          = countsByImpact items sev
      ∧ hasSevHeading (renderMarkdownDeterministic address items) sev
          = !(bucket items sev).isEmpty := by
  intro sev hs
  unfold renderMarkdownDeterministic
  by_cases hempty : (renderSections items == "") = true
  · rw [if_pos hempty]
    have hpres : impactOrder.filter (fun s' => !(bucket items s').isEmpty) = [] := by
      by_contra hne
      obtain ⟨p0, ps, hcons⟩ := List.exists_cons_of_ne_nil hne
      have he : renderSections items = "" := by simpa using hempty
      unfold renderSections at he
      rw [hcons] at he
      simp only [List.map_cons] at he
      obtain ⟨t, ht⟩ := joinNl_data_cons (sectionFor items p0) (ps.map (sectionFor items))
      obtain ⟨u, hu⟩ := sectionFor_data_hash items p0
      rw [he, hu] at ht
      simp at ht
    have hbsev : bucket items sev = [] := by
      have := List.filter_eq_nil_iff.mp hpres sev hs
      simpa using this
    have hout : mdLines (noVulnSentence address) = [noVulnSentence address] := by
      refine mdLines_of_noNl ?_
      unfold noVulnSentence
      exact noNl_append (noNl_append (by decide) hadr) (by decide)
    have hnotuh : isSevHeadingLine sev (noVulnSentence address) = false := by
      have hh : (noVulnSentence address).data.head? = some '✅' := by
        unfold noVulnSentence
        exact head?_append (head?_append
          (rfl : "✅ No vulnerabilities found by Slither for ".data.head? = some '✅'))
      exact not_heading_of_okLine (okLine_of_head hh (by decide))
    have hnones : ∀ l ∈ [noVulnSentence address], isSevHeadingLine sev l = false := by
      intro l hl
      rcases List.mem_cons.mp hl with rfl | hl
      · exact hnotuh
      · exact absurd hl (List.not_mem_nil l)
    constructor
    · unfold specSectionSubCount countsByImpact
      rw [hout, hbsev, dropThrough_nil_of_none hnones]
      rfl
    · unfold hasSevHeading
      rw [hout, hbsev]
      simp [hnotuh]
  · rw [if_neg hempty]
    have hpne : impactOrder.filter (fun s' => !(bucket items s').isEmpty) ≠ [] := by
      intro hp
      apply hempty
      have he : renderSections items = "" := by
        unfold renderSections
        rw [hp]
        rfl
      simp [he]
    have hdoc : mdLines (renderSections items)
        = ((impactOrder.filter (fun s' => !(bucket items s').isEmpty)).map
            (fun s' => mdLines (sectionFor items s'))).flatten := by
      unfold renderSections
      rw [mdLines_joinNl_flatten (by simpa using hpne), List.map_map]
      rfl
    have hsecnone : ∀ s' ∈ impactOrder.filter (fun s' => !(bucket items s').isEmpty),
        s' ≠ sev → ∀ l ∈ mdLines (sectionFor items s'), isSevHeadingLine sev l = false := by
      intro s' hs' hne l hl
      have hs'o : s' ∈ impactOrder := List.mem_of_mem_filter hs'
      have hs'ne : bucket items s' ≠ [] := by
        have := (List.mem_filter.mp hs').2
        intro hb
        rw [hb] at this
        simp at this
      rw [sectionFor_lines_flat items s' hs'o hs'ne] at hl
      rcases List.mem_cons.mp hl with rfl | hl
      · exact heading_other sev hs s' hs'o (fun he => hne he.symm)
      rcases List.mem_cons.mp hl with rfl | hl
      · exact empty_line_not_heading sev hs
      · obtain ⟨hfacts, _, _⟩ := sectionBody_facts (bucket items s')
          (fun it hit => hnl it (List.mem_of_mem_filter hit))
        exact (hfacts l hl).2 sev
    by_cases hbsev : bucket items sev = []
    · -- the severity is absent: no heading, zero count
      have hnones : ∀ l ∈ ((impactOrder.filter (fun s' => !(bucket items s').isEmpty)).map
          (fun s' => mdLines (sectionFor items s'))).flatten,
          isSevHeadingLine sev l = false := by
        intro l hl
        rw [List.mem_flatten] at hl
        obtain ⟨xs, hxs, hlx⟩ := hl
        rw [List.mem_map] at hxs
        obtain ⟨s', hs', rfl⟩ := hxs
        have hne : s' ≠ sev := by
          intro he
          subst he
          have := (List.mem_filter.mp hs').2
          rw [hbsev] at this
          simp at this
        exact hsecnone s' hs' hne l hlx
      constructor
      · unfold specSectionSubCount countsByImpact
        rw [hdoc, hbsev, dropThrough_nil_of_none hnones]
        rfl
      · unfold hasSevHeading
        rw [hdoc, hbsev]
        have ha : (((impactOrder.filter (fun s' => !(bucket items s').isEmpty)).map
            (fun s' => mdLines (sectionFor items s'))).flatten.any
              (isSevHeadingLine sev)) = false := by
          rw [List.any_eq_false]
          intro l hl
          simp [hnones l hl]
        rw [ha]
        rfl
    · -- the severity is present: heading found, counts match
      have hmem : sev ∈ impactOrder.filter (fun s' => !(bucket items s').isEmpty) :=
        List.mem_filter.mpr ⟨hs, by
          cases hI : (bucket items sev).isEmpty
          · rfl
          · exact absurd (List.isEmpty_iff.mp hI) hbsev⟩
      obtain ⟨p1, p2, hsplit⟩ := List.append_of_mem hmem
      have hnd : (p1 ++ sev :: p2).Nodup := by
        rw [← hsplit]
        exact List.Nodup.filter _ impactOrder_nodup
      obtain ⟨hnd1, hnd2, hdisj⟩ := List.nodup_append.mp hnd
      have hnp1 : sev ∉ p1 := fun hin => hdisj hin (List.mem_cons_self _ _)
      have hnp2 : sev ∉ p2 := (List.nodup_cons.mp hnd2).1
      have hsub1 : ∀ s' ∈ p1, s' ∈ impactOrder.filter (fun s' => !(bucket items s').isEmpty) :=
        fun s' h => hsplit ▸ List.mem_append_left _ h
      have hsub2 : ∀ s' ∈ p2, s' ∈ impactOrder.filter (fun s' => !(bucket items s').isEmpty) :=
        fun s' h => hsplit ▸ List.mem_append_right _ (List.mem_cons_of_mem _ h)
      obtain ⟨hfacts, hcount2, hcount3⟩ := sectionBody_facts (bucket items sev)
        (fun it hit => hnl it (List.mem_of_mem_filter hit))
      have hdoc2 : ((impactOrder.filter (fun s' => !(bucket items s').isEmpty)).map
            (fun s' => mdLines (sectionFor items s'))).flatten
          = (p1.map (fun s' => mdLines (sectionFor items s'))).flatten
            ++ (mdLines (sectionFor items sev)
              ++ (p2.map (fun s' => mdLines (sectionFor items s'))).flatten) := by
        rw [hsplit]
        simp [List.map_append, List.flatten_append, List.map_cons, List.flatten_cons]
      have hnone1 : ∀ l ∈ (p1.map (fun s' => mdLines (sectionFor items s'))).flatten,
          isSevHeadingLine sev l = false := by
        intro l hl
        rw [List.mem_flatten] at hl
        obtain ⟨xs, hxs, hlx⟩ := hl
        rw [List.mem_map] at hxs
        obtain ⟨s', hs', rfl⟩ := hxs
        exact hsecnone s' (hsub1 s' hs') (fun he => hnp1 (he ▸ hs')) l hlx
      have hsecsev : mdLines (sectionFor items sev)
          = sevHeading sev :: "" ::
              ((bucket items sev).map (fun it => mdLines (renderOne it))).flatten :=
        sectionFor_lines_flat items sev hs hbsev
      have hdrop : dropThroughHeading sev
          (((impactOrder.filter (fun s' => !(bucket items s').isEmpty)).map
            (fun s' => mdLines (sectionFor items s'))).flatten)
          = ("" :: ((bucket items sev).map (fun it => mdLines (renderOne it))).flatten)
            ++ (p2.map (fun s' => mdLines (sectionFor items s'))).flatten := by
        rw [hdoc2, dropThrough_append_none hnone1, hsecsev]
        rw [List.cons_append, dropThrough_cons, if_pos (by simp [heading_self sev hs])]
      have htake : (("" :: ((bucket items sev).map (fun it => mdLines (renderOne it))).flatten)
            ++ (p2.map (fun s' => mdLines (sectionFor items s'))).flatten).takeWhile
              (fun l => !(lineStarts l "# "))
          = "" :: ((bucket items sev).map (fun it => mdLines (renderOne it))).flatten := by
        have hall : ∀ x ∈ ("" ::
            ((bucket items sev).map (fun it => mdLines (renderOne it))).flatten),
            (fun l => !(lineStarts l "# ")) x = true := by
          intro x hx
          rcases List.mem_cons.mp hx with rfl | hx
          · decide
          · simp [(hfacts x hx).1]
        rw [takeWhile_append_all hall]
        have hrest : ((p2.map (fun s' => mdLines (sectionFor items s'))).flatten).takeWhile
            (fun l => !(lineStarts l "# ")) = [] := by
          cases hp2 : p2 with
          | nil => rfl
          | cons q qt =>
            have hqmem := hsub2 q (hp2 ▸ List.mem_cons_self q qt)
            have hqo : q ∈ impactOrder := List.mem_of_mem_filter hqmem
            have hqne : bucket items q ≠ [] := by
              have := (List.mem_filter.mp hqmem).2
              intro hb
              rw [hb] at this
              simp at this
            simp only [List.map_cons, List.flatten_cons]
            rw [sectionFor_lines_flat items q hqo hqne]
            rw [List.cons_append, List.takeWhile_cons,
              if_neg (by simp [heading_starts q hqo])]
        rw [hrest, List.append_nil]
      constructor
      · unfold specSectionSubCount countsByImpact
        rw [hdoc, hdrop, htake]
        rw [List.countP_cons, List.countP_cons, hcount2, hcount3]
        have e1 : lineStarts "" "## " = false := by decide
        have e2 : lineStarts "" "### " = false := by decide
        simp [e1, e2, Nat.max_zero]
      · unfold hasSevHeading
        rw [hdoc]
        have hmemline : sevHeading sev
            ∈ ((impactOrder.filter (fun s' => !(bucket items s').isEmpty)).map
              (fun s' => mdLines (sectionFor items s'))).flatten := by
          rw [hdoc2]
          refine List.mem_append_right _ (List.mem_append_left _ ?_)
          rw [hsecsev]
          exact List.mem_cons_self _ _
        have ha : (((impactOrder.filter (fun s' => !(bucket items s').isEmpty)).map
            (fun s' => mdLines (sectionFor items s'))).flatten.any
              (isSevHeadingLine sev)) = true := by
          rw [List.any_eq_true]
          exact ⟨sevHeading sev, hmemline, heading_self sev hs⟩
        rw [ha]
        cases hI : (bucket items sev).isEmpty
        · rfl
        · exact absurd (List.isEmpty_iff.mp hI) hbsev

/-- Claim C6 witness: the amended count/heading facts at a concrete
newline-free finding set with two High findings and one Low finding. -/
theorem renderer_section_counts_witness :
    (∀ it ∈ c6WitItems, issueNoNl it = true)
    ∧ (∀ it ∈ c6WitItems, recognizedB it.impact = true)
    ∧ noNl "0xDEF" = true
    ∧ ∀ sev ∈ impactOrder,
        specSectionSubCount (renderMarkdownDeterministic "0xDEF" c6WitItems) sev
            = countsByImpact c6WitItems sev
        ∧ hasSevHeading (renderMarkdownDeterministic "0xDEF" c6WitItems) sev
            = !(bucket c6WitItems sev).isEmpty :=
  ⟨by decide, by decide, by decide,
    renderer_section_counts "0xDEF" c6WitItems (by decide) (by decide) (by decide)⟩


/- ──────────────── grouping idempotence lemmas (Claim C8) ──────────────── -/

theorem uniqAux_cons (l : Location) (rest : List Location) (seen : List String) :
    uniqAux (l :: rest) seen
      = if locKey l ∈ seen then uniqAux rest seen
        else l :: uniqAux rest (locKey l :: seen) := rfl

theorem uniqAux_idem (xs : List Location) :
    ∀ seen, uniqAux (uniqAux xs seen) seen = uniqAux xs seen := by
  induction xs with
  | nil => intro seen; rfl
  | cons l rest ih =>
    intro seen
    by_cases h : locKey l ∈ seen
    · rw [uniqAux_cons, if_pos h]
      exact ih seen
    · rw [uniqAux_cons, if_neg h, uniqAux_cons, if_neg h]
      rw [ih (locKey l :: seen)]

theorem uniq_idem (xs : List Location) :
    uniqueLocations (uniqueLocations xs) = uniqueLocations xs :=
  uniqAux_idem xs []

theorem uniqAux_subset {l : Location} :
    ∀ (xs : List Location) (seen : List String), l ∈ uniqAux xs seen → l ∈ xs := by
  intro xs
  induction xs with
  | nil => intro seen h; exact absurd h (List.not_mem_nil l)
  | cons x rest ih =>
    intro seen h
    by_cases hx : locKey x ∈ seen
    · rw [uniqAux_cons, if_pos hx] at h
      exact List.mem_cons_of_mem _ (ih seen h)
    · rw [uniqAux_cons, if_neg hx] at h
      rcases List.mem_cons.mp h with rfl | h
      · exact List.mem_cons_self _ _
      · exact List.mem_cons_of_mem _ (ih _ h)

theorem firstElem_cons (l : Location) (rest : List Location) :
    firstElem (l :: rest)
      = if l.element == "" then firstElem rest else l.element := by
  unfold firstElem
  rw [List.find?_cons]
  cases he : (l.element == "") <;> simp [he]

theorem firstElem_append (a b : List Location) :
    firstElem (a ++ b) = if firstElem a == "" then firstElem b else firstElem a := by
  induction a with
  | nil => simp [firstElem]
  | cons l rest ih =>
    rw [List.cons_append, firstElem_cons, firstElem_cons, ih]
    by_cases he : (l.element == "") = true
    · rw [if_pos he, if_pos he]
    · rw [if_neg he, if_neg he, if_neg he]

theorem firstElem_ne_of_find {locs : List Location} {lo : Location}
    (h : locs.find? (fun l => !(l.element == "")) = some lo) :
    firstElem locs = lo.element ∧ ¬(lo.element = "") := by
  constructor
  · unfold firstElem
    rw [h]
  · have := List.find?_some h
    simpa using this

theorem firstElem_main {xs : List Location}
    (inj : ∀ a ∈ xs, ∀ b ∈ xs, locKey a = locKey b → a = b) :
    ∀ seen, (∀ a ∈ xs, ¬(a.element = "") → locKey a ∉ seen) →
      firstElem (uniqAux xs seen) = firstElem xs := by
  induction xs with
  | nil => intro seen _; rfl
  | cons l rest ih =>
    intro seen seenOK
    have inj' : ∀ a ∈ rest, ∀ b ∈ rest, locKey a = locKey b → a = b :=
      fun a ha b hb => inj a (List.mem_cons_of_mem _ ha) b (List.mem_cons_of_mem _ hb)
    by_cases h : locKey l ∈ seen
    · have hle : l.element = "" := by
        by_contra hne
        exact seenOK l (List.mem_cons_self _ _) hne h
      rw [uniqAux_cons, if_pos h, firstElem_cons, if_pos (by simp [hle])]
      exact ih inj' seen
        (fun a ha hne => seenOK a (List.mem_cons_of_mem _ ha) hne)
    · rw [uniqAux_cons, if_neg h, firstElem_cons, firstElem_cons]
      by_cases he : (l.element == "") = true
      · rw [if_pos he, if_pos he]
        refine ih inj' (locKey l :: seen) ?_
        intro a ha hne hm
        rcases List.mem_cons.mp hm with hm | hm
        · have : a = l := inj a (List.mem_cons_of_mem _ ha) l (List.mem_cons_self _ _) hm
          rw [this] at hne
          exact hne (by simpa using he)
        · exact seenOK a (List.mem_cons_of_mem _ ha) hne hm
      · rw [if_neg he, if_neg he]

theorem upsert_fresh {acc : List (String × NormalizedIssue)} {k : String}
    (it : NormalizedIssue) (h : k ∉ acc.map Prod.fst) :
    upsert acc k it
      = acc ++ [(k, { it with locations := uniqueLocations it.locations })] := by
  induction acc with
  | nil => rfl
  | cons hd tl ih =>
    obtain ⟨k', g⟩ := hd
    have hk : ¬(k' = k) := by
      intro he
      exact h (he ▸ List.mem_cons_self k' (tl.map Prod.fst))
    unfold upsert
    rw [if_neg hk]
    rw [ih (fun hm => h (List.mem_cons_of_mem _ hm))]
    rfl

theorem fold_skip {xs : List NormalizedIssue}
    (h : ∀ x ∈ xs, groupEligible x = false) :
    ∀ acc, xs.foldl (fun acc it =>
        if groupEligible it then upsert acc (groupKey it) it else acc) acc = acc := by
  induction xs with
  | nil => intro acc; rfl
  | cons x xt ih =>
    intro acc
    rw [List.foldl_cons]
    rw [h x (List.mem_cons_self _ _)]
    simp only [Bool.false_eq_true, if_false]
    exact ih (fun y hy => h y (List.mem_cons_of_mem _ hy)) acc


theorem eligible_check {it : NormalizedIssue} (h : groupEligible it = true) :
    it.check = "missing-zero-check" := by
  unfold groupEligible at h
  exact eq_of_beq h

theorem check_eligible {it : NormalizedIssue} (h : it.check = "missing-zero-check") :
    groupEligible it = true := by
  unfold groupEligible
  rw [h]
  exact beq_self_eq_true _

theorem groupKey_uniq {base : List NormalizedIssue} (hbase : KeyInj base)
    {it : NormalizedIssue} (hlocs : ∀ l ∈ it.locations, l ∈ allLocs base) :
    groupKey { it with locations := uniqueLocations it.locations } = groupKey it := by
  show it.check ++ "@@" ++ firstElem (uniqueLocations it.locations)
      = it.check ++ "@@" ++ firstElem it.locations
  unfold uniqueLocations
  rw [firstElem_main (fun a ha b hb => hbase a (hlocs a ha) b (hlocs b hb)) []
    (fun a _ _ hm => absurd hm (List.not_mem_nil _))]

theorem upsert_cons_eq (k' : String) (g : NormalizedIssue)
    (tl : List (String × NormalizedIssue)) (k : String) (it : NormalizedIssue) :
    upsert ((k', g) :: tl) k it
      = if k' = k then
          (k', { g with locations := uniqueLocations (g.locations ++ it.locations) }) :: tl
        else (k', g) :: upsert tl k it := rfl

theorem upsert_inv {base : List NormalizedIssue} (hbase : KeyInj base)
    {it : NormalizedIssue} (hel : groupEligible it = true)
    (hlocs : ∀ l ∈ it.locations, l ∈ allLocs base) :
    ∀ acc, GroupAccInv base acc → GroupAccInv base (upsert acc (groupKey it) it) := by
  intro acc
  induction acc with
  | nil =>
    intro _
    constructor
    · intro p hp
      rcases List.mem_singleton.mp hp with rfl
      refine ⟨eligible_check hel, (groupKey_uniq hbase hlocs).symm, uniq_idem _, ?_⟩
      intro l hl
      exact hlocs l (uniqAux_subset _ [] hl)
    · show ([(groupKey it, { it with locations := uniqueLocations it.locations })].map
        Prod.fst).Nodup
      simp
  | cons hd tl ih =>
    intro hinv
    obtain ⟨k', g⟩ := hd
    obtain ⟨hall, hnd⟩ := hinv
    obtain ⟨hgchk, hgkey, hguniq, hgmem⟩ := hall (k', g) (List.mem_cons_self _ _)
    simp only [List.map_cons] at hnd
    obtain ⟨hknotin, hndtl⟩ := List.nodup_cons.mp hnd
    by_cases hk : k' = groupKey it
    · rw [upsert_cons_eq, if_pos hk]
      have hchk : g.check = it.check := by rw [hgchk, eligible_check hel]
      have hkeys : groupKey g = groupKey it := by rw [← hgkey, hk]
      have hfe : firstElem g.locations = firstElem it.locations := by
        have h2 : it.check ++ "@@" ++ firstElem g.locations
            = it.check ++ "@@" ++ firstElem it.locations := by
          have h3 := hkeys
          unfold groupKey at h3
          rw [hchk] at h3
          exact h3
        exact str_append_right_inj _ h2
      have hinj : ∀ a ∈ g.locations ++ it.locations, ∀ b ∈ g.locations ++ it.locations,
          locKey a = locKey b → a = b := by
        intro a ha b hb
        have ha2 : a ∈ allLocs base := by
          rcases List.mem_append.mp ha with h1 | h1
          · exact hgmem a h1
          · exact hlocs a h1
        have hb2 : b ∈ allLocs base := by
          rcases List.mem_append.mp hb with h1 | h1
          · exact hgmem b h1
          · exact hlocs b h1
        exact hbase a ha2 b hb2
      have hfeU : firstElem (uniqueLocations (g.locations ++ it.locations))
          = firstElem g.locations := by
        unfold uniqueLocations
        rw [firstElem_main hinj [] (fun a _ _ hm => absurd hm (List.not_mem_nil _))]
        rw [firstElem_append, ← hfe]
        simp
      constructor
      · intro p hp
        rcases List.mem_cons.mp hp with rfl | hp
        · refine ⟨hgchk, ?_, uniq_idem _, ?_⟩
          · show k' = groupKey { g with locations := uniqueLocations (g.locations ++ it.locations) }
            rw [show groupKey { g with locations := uniqueLocations (g.locations ++ it.locations) }
                = g.check ++ "@@" ++ firstElem (uniqueLocations (g.locations ++ it.locations))
              from rfl, hfeU]
            exact hgkey
          · intro l hl
            have hl2 := uniqAux_subset _ [] hl
            rcases List.mem_append.mp hl2 with h1 | h1
            · exact hgmem l h1
            · exact hlocs l h1
        · exact hall p (List.mem_cons_of_mem _ hp)
      · simp only [List.map_cons]
        exact List.nodup_cons.mpr ⟨hknotin, hndtl⟩
    · rw [upsert_cons_eq, if_neg hk]
      obtain ⟨ihall, ihnd⟩ := ih ⟨fun p hp => hall p (List.mem_cons_of_mem _ hp), hndtl⟩
      constructor
      · intro p hp
        rcases List.mem_cons.mp hp with rfl | hp
        · exact ⟨hgchk, hgkey, hguniq, hgmem⟩
        · exact ihall p hp
      · simp only [List.map_cons]
        refine List.nodup_cons.mpr ⟨?_, ihnd⟩
        rw [upsert_keys]
        by_cases hm : groupKey it ∈ tl.map Prod.fst
        · rw [if_pos hm]
          exact hknotin
        · rw [if_neg hm]
          intro hc
          rcases List.mem_append.mp hc with h1 | h1
          · exact hknotin h1
          · exact hk (List.mem_singleton.mp h1)

theorem groupFold_inv {base : List NormalizedIssue} (hbase : KeyInj base) :
    ∀ (todo : List NormalizedIssue),
      (∀ it ∈ todo, ∀ l ∈ it.locations, l ∈ allLocs base) →
      ∀ acc, GroupAccInv base acc →
        GroupAccInv base (todo.foldl (fun acc it =>
          if groupEligible it then upsert acc (groupKey it) it else acc) acc) := by
  intro todo
  induction todo with
  | nil => intro _ acc hinv; exact hinv
  | cons x xt ih =>
    intro hmem acc hinv
    rw [List.foldl_cons]
    by_cases hel : groupEligible x = true
    · rw [if_pos hel]
      exact ih (fun it hit => hmem it (List.mem_cons_of_mem _ hit)) _
        (upsert_inv hbase hel (hmem x (List.mem_cons_self _ _)) acc hinv)
    · rw [if_neg hel]
      exact ih (fun it hit => hmem it (List.mem_cons_of_mem _ hit)) acc hinv

theorem fold_grouped :
    ∀ (gvals : List NormalizedIssue) (acc : List (String × NormalizedIssue)),
      (∀ g ∈ gvals, groupEligible g = true ∧ uniqueLocations g.locations = g.locations) →
      (acc.map Prod.fst ++ gvals.map groupKey).Nodup →
      gvals.foldl (fun acc it =>
          if groupEligible it then upsert acc (groupKey it) it else acc) acc
        = acc ++ gvals.map (fun g => (groupKey g, g)) := by
  intro gvals
  induction gvals with
  | nil => intro acc _ _; simp
  | cons g gt ih =>
    intro acc hg hnd
    rw [List.foldl_cons, if_pos (hg g (List.mem_cons_self _ _)).1]
    have hfresh : groupKey g ∉ acc.map Prod.fst := by
      intro hc
      exact (List.nodup_append.mp hnd).2.2 hc (by simp)
    rw [upsert_fresh g hfresh]
    rw [show (groupKey g, { g with locations := uniqueLocations g.locations })
        = (groupKey g, g)
      from by rw [(hg g (List.mem_cons_self _ _)).2]]
    have hnd2 : ((acc ++ [(groupKey g, g)]).map Prod.fst ++ gt.map groupKey).Nodup := by
      simp only [List.map_append, List.map_cons, List.map_nil] at hnd ⊢
      rw [List.append_assoc]
      exact hnd
    rw [ih (acc ++ [(groupKey g, g)]) (fun x hx => hg x (List.mem_cons_of_mem _ hx)) hnd2]
    rw [List.append_assoc]
    rfl

/-- Claim C8 counterexample: colliding serialized location keys break the
Grouper's idempotence — on the pair `[c8G1, c8G2]` one application yields
two findings but a second application merges them into one, so applying the
Grouper to its own output does not return that output. -/
theorem grouper_not_idempotent_cex :
    groupByCheckAndElement (groupByCheckAndElement [c8G1, c8G2])
        ≠ groupByCheckAndElement [c8G1, c8G2]
      ∧ (groupByCheckAndElement [c8G1, c8G2]).length = 2
      ∧ (groupByCheckAndElement (groupByCheckAndElement [c8G1, c8G2])).length = 1 := by
  decide

/-- Claim C8 (amended): the Grouper is idempotent whenever the serialized
location keys are injective on the input's locations (in particular when no
file or element name contains a colon): applying `groupByCheckAndElement`
to its own output returns that output unchanged. -/
theorem grouper_idempotent (items : List NormalizedIssue) (h : KeyInj items) :
    groupByCheckAndElement (groupByCheckAndElement items) = groupByCheckAndElement items := by
  have hmem : ∀ it ∈ items, ∀ l ∈ it.locations, l ∈ allLocs items := by
    intro it hit l hl
    exact List.mem_flatMap.mpr ⟨it, hit, hl⟩
  have hinv : GroupAccInv items (groupFold items) := by
    unfold groupFold
    exact groupFold_inv h items hmem []
      ⟨fun p hp => absurd hp (List.not_mem_nil _), List.nodup_nil⟩
  obtain ⟨hall, hnd⟩ := hinv
  have hgval : ∀ g ∈ (groupFold items).map Prod.snd,
      groupEligible g = true ∧ uniqueLocations g.locations = g.locations := by
    intro g hgm
    rcases List.mem_map.mp hgm with ⟨p, hp, rfl⟩
    obtain ⟨hc, _, hu, _⟩ := hall p hp
    exact ⟨check_eligible hc, hu⟩
  have hkeys : ((groupFold items).map Prod.snd).map groupKey
      = (groupFold items).map Prod.fst := by
    rw [List.map_map]
    exact List.map_congr_left (fun p hp => ((hall p hp).2.1).symm)
  have hpassall : ∀ it ∈ items.filter (fun it => !(groupEligible it)),
      groupEligible it = false := by
    intro it hit
    have h2 := List.of_mem_filter hit
    simpa using h2
  have hfil : (groupByCheckAndElement items).filter (fun it => !(groupEligible it))
      = items.filter (fun it => !(groupEligible it)) := by
    unfold groupByCheckAndElement
    rw [List.filter_append]
    have h1 : (items.filter (fun it => !(groupEligible it))).filter
          (fun it => !(groupEligible it))
        = items.filter (fun it => !(groupEligible it)) := by
      apply List.filter_eq_self.mpr
      intro a ha
      exact (List.mem_filter.mp ha).2
    have h2 : ((groupFold items).map Prod.snd).filter (fun it => !(groupEligible it)) = [] := by
      apply List.filter_eq_nil_iff.mpr
      intro a ha
      simp [(hgval a ha).1]
    rw [h1, h2, List.append_nil]
  have hfold : groupFold (groupByCheckAndElement items)
      = ((groupFold items).map Prod.snd).map (fun g => (groupKey g, g)) := by
    show (items.filter (fun it => !(groupEligible it)) ++ (groupFold items).map Prod.snd).foldl
        (fun acc it => if groupEligible it then upsert acc (groupKey it) it else acc) []
      = ((groupFold items).map Prod.snd).map (fun g => (groupKey g, g))
    rw [List.foldl_append]
    rw [fold_skip hpassall []]
    have hnd2 : (([] : List (String × NormalizedIssue)).map Prod.fst
        ++ ((groupFold items).map Prod.snd).map groupKey).Nodup := by
      rw [List.map_nil, List.nil_append, hkeys]
      exact hnd
    rw [fold_grouped ((groupFold items).map Prod.snd) [] hgval hnd2, List.nil_append]
  rw [show groupByCheckAndElement (groupByCheckAndElement items)
      = (groupByCheckAndElement items).filter (fun it => !(groupEligible it))
        ++ (groupFold (groupByCheckAndElement items)).map Prod.snd from rfl]
  rw [hfil, hfold, List.map_map]
  have hsnd : ((groupFold items).map Prod.snd).map (Prod.snd ∘ fun g => (groupKey g, g))
      = (groupFold items).map Prod.snd := by
    refine (List.map_congr_left (fun a _ => ?_)).trans (List.map_id _)
    rfl
  rw [hsnd]
  rfl

/-- Witness for Claim C8: a concrete collision-free input on which the
key-injectivity hypothesis holds and the Grouper is idempotent. -/
theorem grouper_idempotent_witness :
    KeyInj c8WitItems ∧
      groupByCheckAndElement (groupByCheckAndElement c8WitItems)
        = groupByCheckAndElement c8WitItems := by
  have h : KeyInj c8WitItems := by
    unfold KeyInj
    decide
  exact ⟨h, grouper_idempotent c8WitItems h⟩

end Audit
